import Mathlib

set_option maxRecDepth 10000

namespace Sched

/-!
Verification development for the day-scheduling engine in
`src/services/scheduler.ts` (`timeToMinutes`, `minutesToTime`, `rescheduleDay`).

The TypeScript code is shallowly embedded:
* JS strings are `List Char`;
* the JS numbers that occur in the scheduler are integers or `NaN`,
  modelled by the type `JNum`;
* the engine's in-place mutation of the gap array becomes explicit state
  passing, and its `while` loop becomes a fuel-indexed recursion (a separate
  theorem shows the fuel chosen by `rescheduleDay` always suffices, so the
  out-of-fuel branch is unreachable).
-/

/-- JS strings, modelled as lists of characters. -/
abbrev Str := List Char

/-- The JS numbers occurring in the scheduler: integers or `NaN`.
All arithmetic in the source stays integral, so no other values arise. -/
inductive JNum : Type where
  | nan : JNum
  | num : Int → JNum
  deriving DecidableEq, Repr

/-- JS `+` on numbers (NaN-propagating). -/
def jadd : JNum → JNum → JNum
  | .num a, .num b => .num (a + b)
  | _, _ => .nan

/-- JS `-` on numbers (NaN-propagating). -/
def jsub : JNum → JNum → JNum
  | .num a, .num b => .num (a - b)
  | _, _ => .nan

/-- JS `*` on numbers (NaN-propagating). -/
def jmul : JNum → JNum → JNum
  | .num a, .num b => .num (a * b)
  | _, _ => .nan

/-- JS `Math.max` (NaN-propagating). -/
def jmax : JNum → JNum → JNum
  | .num a, .num b => .num (max a b)
  | _, _ => .nan

/-- JS `Math.min` (NaN-propagating). -/
def jmin : JNum → JNum → JNum
  | .num a, .num b => .num (min a b)
  | _, _ => .nan

/-- JS `>=` on numbers: false whenever NaN is involved. -/
def jge : JNum → JNum → Bool
  | .num a, .num b => decide (a ≥ b)
  | _, _ => false

/-- JS `>` on numbers: false whenever NaN is involved. -/
def jgt : JNum → JNum → Bool
  | .num a, .num b => decide (a > b)
  | _, _ => false

/-- JS `<=` on numbers: false whenever NaN is involved. -/
def jle : JNum → JNum → Bool
  | .num a, .num b => decide (a ≤ b)
  | _, _ => false

/-- JS `<` on numbers: false whenever NaN is involved. -/
def jlt : JNum → JNum → Bool
  | .num a, .num b => decide (a < b)
  | _, _ => false

/-- "comparator result < 0" as used by JS `Array.prototype.sort`: per the
ECMAScript SortCompare step, a NaN comparator value is coerced to +0, so it
counts as "not less". -/
def jsCmpLt : JNum → Bool
  | .num n => decide (n < 0)
  | .nan => false

/-- Decimal value of a digit string. -/
def digitsVal (s : Str) : Int :=
  s.foldl (fun acc c => acc * 10 + Int.ofNat (c.toNat - 48)) 0

/-- Model of the JS `Number(string)` conversion, on the fragment the scheduler
exercises: the empty string converts to 0, a non-empty all-digit string to its
decimal value, and anything else (the malformed inputs considered here) to
NaN. -/
def jsNumber (s : Str) : JNum :=
  if s = [] then .num 0
  else if s.all Char.isDigit then .num (digitsVal s)
  else .nan

/-- Model of JS `String.prototype.split` with a single-character separator
(`"".split(c)` gives `[""]`, separators at the ends give empty pieces). -/
def splitCh (c : Char) : Str → List Str
  | [] => [[]]
  | x :: xs =>
    let r := splitCh c xs
    if x = c then [] :: r
    else
      match r with
      | [] => [[x]]
      | y :: ys => (x :: y) :: ys

/-- `timeToMinutes` from `scheduler.ts`:
`const [hours, minutes] = time.split(':').map(Number); return hours*60 + minutes;`.
A missing destructured component is `undefined`, which behaves as NaN in the
ensuing arithmetic, hence the `JNum.nan` defaults. -/
def timeToMinutes (time : Str) : JNum :=
  let parts := (splitCh ':' time).map jsNumber
  let hours := parts.getD 0 JNum.nan
  let minutes := parts.getD 1 JNum.nan
  jadd (jmul hours (JNum.num 60)) minutes

/-- Digits of a positive natural, via fuel-indexed structural recursion so the
kernel can evaluate it. -/
def natToStrAux : Nat → Nat → Str
  | 0, _ => []
  | _ + 1, 0 => []
  | fuel + 1, n + 1 =>
    natToStrAux fuel ((n + 1) / 10) ++ [Char.ofNat (48 + (n + 1) % 10)]

/-- JS `Number.prototype.toString` for a natural number. -/
def natToStr (n : Nat) : Str :=
  if n = 0 then ['0'] else natToStrAux (n + 1) n

/-- JS `Number.prototype.toString` for an integer. -/
def intToStr (n : Int) : Str :=
  if n < 0 then '-' :: natToStr n.natAbs else natToStr n.toNat

/-- JS `String.prototype.padStart(2, '0')`. -/
def padStart2 (s : Str) : Str :=
  if 2 ≤ s.length then s else List.replicate (2 - s.length) '0' ++ s

/-- `minutesToTime` from `scheduler.ts`:
`h = Math.floor(minutes/60); m = minutes % 60;` then zero-padded `"h:m"`.
`Math.floor` of the real quotient is flooring division; JS `%` truncates
toward zero. -/
def minutesToTime (minutes : Int) : Str :=
  let h := Int.fdiv minutes 60
  let m := Int.tmod minutes 60
  padStart2 (intToStr h) ++ (':' :: padStart2 (intToStr m))


/-! ## Data model (`src/types.ts`) -/

inductive TaskType : Type where
  | anchor : TaskType
  | floating : TaskType
  | interrupt : TaskType
  deriving DecidableEq, BEq, Repr

inductive TaskStatus : Type where
  | pending : TaskStatus
  | scheduled : TaskStatus
  | completed : TaskStatus
  | rollover : TaskStatus
  deriving DecidableEq, BEq, Repr

structure UserSettings where
  workStart : Str
  workEnd : Str
  bufferMinutes : Int
  deriving DecidableEq, Repr

/-- `Task` from `src/types.ts`. The optional `deadline : Date` field is not
read by the engine and is omitted. -/
structure Task where
  id : Str
  title : Str
  type : TaskType
  priority : Int
  durationMinutes : Int
  isSplittable : Bool
  status : TaskStatus
  fixedStartTime : Option Str
  deriving DecidableEq, Repr

structure ScheduleBlock where
  id : Str
  taskId : Str
  taskTitle : Str
  taskType : TaskType
  startTime : JNum
  endTime : JNum
  isLocked : Bool
  priority : Int
  status : TaskStatus
  deriving DecidableEq, Repr

/-- An occupied range `{start, end}` as pushed into `occupied`. -/
structure Ivl where
  start : JNum
  «end» : JNum
  deriving DecidableEq, Repr

/-- A gap `{start, end, duration}`; the fitter updates `start` and
`duration` in place and never touches `end` again. -/
structure Gap where
  start : JNum
  «end» : JNum
  duration : JNum
  deriving DecidableEq, Repr

/-! ## The engine (`rescheduleDay` in `src/services/scheduler.ts`) -/

/-- Step 2 of `rescheduleDay`: for each fixed task with a truthy
`fixedStartTime` (present and non-empty), emit a locked block at the parsed
time and push the buffer-expanded occupied range, clamped to `[0, 1440]`.
Fixed tasks without a start time are silently skipped. -/
def fixedPass (buffer : Int) : List Task → List ScheduleBlock × List Ivl
  | [] => ([], [])
  | task :: rest =>
    let (bs, occ) := fixedPass buffer rest
    match task.fixedStartTime with
    | some s =>
      if s ≠ [] then
        let start := timeToMinutes s
        let stop := jadd start (JNum.num task.durationMinutes)
        ({ id := "block-".toList ++ task.id,
           taskId := task.id, taskTitle := task.title, taskType := task.type,
           startTime := start, endTime := stop,
           isLocked := true, priority := task.priority,
           status := TaskStatus.scheduled } :: bs,
         { start := jmax (JNum.num 0) (jsub start (JNum.num buffer)),
           «end» := jmin (JNum.num 1440) (jadd stop (JNum.num buffer)) } :: occ)
      else (bs, occ)
    | none => (bs, occ)

/-- Insert `x` into `acc` right before the first element `y` with `lt x y`.
Feeding elements in their original order keeps the sort stable. -/
def insStable (lt : α → α → Bool) (x : α) : List α → List α
  | [] => [x]
  | y :: ys => if lt x y then x :: y :: ys else y :: insStable lt x ys

def sortStableGo (lt : α → α → Bool) : List α → List α → List α
  | acc, [] => acc
  | acc, x :: xs => sortStableGo lt (insStable lt x acc) xs

/-- Stable sort driven by a JS comparator; `lt x y` means "comparator(x, y)
is negative".  JS `Array.prototype.sort` is stable (ES2019), and for a
consistent comparator every stable sort produces the same list. -/
def sortStable (lt : α → α → Bool) (l : List α) : List α := sortStableGo lt [] l

/-- Comparator `(a, b) => a.start - b.start` of the occupied ranges. -/
def occLt (a b : Ivl) : Bool := jsCmpLt (jsub a.start b.start)

/-- The merge loop over the sorted occupied ranges: a range whose start is
strictly below the running range's end is absorbed (end = max of ends). -/
def mergeOcc : Ivl → List Ivl → List Ivl
  | current, [] => [current]
  | current, o :: rest =>
    if jlt o.start current.«end» then
      mergeOcc { current with «end» := jmax current.«end» o.«end» } rest
    else current :: mergeOcc o rest

def mergedOccupied : List Ivl → List Ivl
  | [] => []
  | c :: rest => mergeOcc c rest

/-- `timeToMinutes("06:00")`, the hard-coded window start. -/
def dayStart : JNum := timeToMinutes ("06:00".toList)

/-- `timeToMinutes("23:00")`, the hard-coded window end. -/
def dayEnd : JNum := timeToMinutes ("23:00".toList)

/-- Step 3 of `rescheduleDay`: the linear scan that turns the merged occupied
ranges into gaps, starting the cursor at 06:00 and emitting a final trailing
gap up to 23:00 when the cursor is still before it. -/
def computeGaps : JNum → List Ivl → List Gap
  | cursor, [] =>
    if jlt cursor dayEnd then
      [{ start := cursor, «end» := dayEnd, duration := jsub dayEnd cursor }]
    else []
  | cursor, occ :: rest =>
    if jle occ.«end» cursor then computeGaps cursor rest
    else if jgt occ.start cursor then
      { start := cursor, «end» := occ.start, duration := jsub occ.start cursor } ::
        computeGaps (jmax cursor occ.«end») rest
    else computeGaps (jmax cursor occ.«end») rest

/-- Comparator of step 4: priority ascending, then duration descending. -/
def taskLt (a b : Task) : Bool :=
  if a.priority = b.priority then decide (b.durationMinutes < a.durationMinutes)
  else decide (a.priority < b.priority)

/-- The first-fit scan of step 5: the first gap (in array order) whose
current duration is at least the task's duration, together with its index. -/
def firstFit (dur : Int) : List Gap → Option (Nat × Gap)
  | [] => none
  | g :: gs =>
    if jge g.duration (JNum.num dur) then some (0, g)
    else (firstFit dur gs).map fun p => (p.1 + 1, p.2)

/-- Comparator `(a, b) => b.duration - a.duration` over index-tagged gaps. -/
def gapDescLt (a b : Nat × Gap) : Bool := jsCmpLt (jsub b.2.duration a.2.duration)

/-- `[...gaps].sort((a,b) => b.duration - a.duration)[0]`: the splitting
logic's "largest gap".  The gaps are tagged with their index in the original
array because the source mutates the selected gap object in place. -/
def largestGap (gaps : List Gap) : Option (Nat × Gap) :=
  (sortStable gapDescLt gaps.enum).head?

/-- The fitter's mutable state.  Each emitted block is paired with the index
of the gap it was carved from (instrumentation mirroring the object identity
of the mutated gap; `rescheduleDay` projects it away). -/
structure FitState where
  gaps : List Gap
  blocks : List (Nat × ScheduleBlock)
  rollover : List Task
  deriving DecidableEq, Repr

/-- One iteration of the fitting loop (steps 5-7): first-fit placement, else
the split attempt, else rollover.  Returns the remaining queue (with a split
remainder pushed to the front) and the updated state. -/
def fitStep (buffer : Int) (task : Task) (queue : List Task) (st : FitState) :
    List Task × FitState :=
  match firstFit task.durationMinutes st.gaps with
  | some (i, gap) =>
    let start := gap.start
    let stop := jadd start (JNum.num task.durationMinutes)
    let consumed := task.durationMinutes + buffer
    (queue,
     { gaps := st.gaps.set i { gap with
         start := jadd gap.start (JNum.num consumed),
         duration := jsub gap.duration (JNum.num consumed) },
       blocks := st.blocks ++ [(i,
         -- the source appends a random suffix to this id; modelled by a
         -- fixed placeholder, since nothing here depends on block ids
         { id := "block-".toList ++ task.id ++ "-x".toList,
           taskId := task.id, taskTitle := task.title, taskType := task.type,
           startTime := start, endTime := stop, isLocked := false,
           priority := task.priority, status := TaskStatus.scheduled })],
       rollover := st.rollover })
  | none =>
    if task.isSplittable && decide (task.durationMinutes > 30) then
      match largestGap st.gaps with
      | some (li, lg) =>
        match lg.duration with
        | .num gd =>
          -- `largestGap.duration >= 15` (false on NaN, handled below)
          if 15 ≤ gd then
            let fitDuration := gd
            let actualFit := max 15 (fitDuration - buffer)
            if actualFit < 15 then
              -- dead branch kept from the source: actualFit ≥ 15 always
              (queue, { st with rollover := st.rollover ++ [task] })
            else
              let partADuration := actualFit
              let partBDuration := task.durationMinutes - partADuration
              let partB : Task := { task with
                title := task.title ++ " (Part 2)".toList,
                durationMinutes := partBDuration }
              (partB :: queue,
               { gaps := st.gaps.set li { lg with
                   start := jadd lg.start (JNum.num (partADuration + buffer)),
                   duration := jsub lg.duration (JNum.num (partADuration + buffer)) },
                 blocks := st.blocks ++ [(li,
                   { id := "block-".toList ++ task.id ++ "-partA".toList,
                     taskId := task.id,
                     taskTitle := task.title ++ " (Part 1)".toList,
                     taskType := task.type,
                     startTime := lg.start,
                     endTime := jadd lg.start (JNum.num partADuration),
                     isLocked := false, priority := task.priority,
                     status := TaskStatus.scheduled })],
                 rollover := st.rollover })
          else (queue, { st with rollover := st.rollover ++ [task] })
        | .nan => (queue, { st with rollover := st.rollover ++ [task] })
      | none => (queue, { st with rollover := st.rollover ++ [task] })
    else (queue, { st with rollover := st.rollover ++ [task] })

/-- The `while (queue.length > 0)` loop, indexed by fuel.  `rescheduleDay`
supplies fuel `queueMeasure queue`, which a theorem below shows is always
enough, so the `none` branch is unreachable. -/
def fitLoop (buffer : Int) : Nat → List Task → FitState → Option FitState
  | _, [], st => some st
  | 0, _ :: _, _ => none
  | fuel + 1, task :: queue, st =>
    let p := fitStep buffer task queue st
    fitLoop buffer fuel p.1 p.2

/-- Termination measure of the fitting loop: each iteration either removes a
task or replaces one by a strictly shorter split remainder. -/
def queueMeasure (queue : List Task) : Nat :=
  (queue.map fun t => t.durationMinutes.toNat + 1).sum

structure EngineResult where
  blocks : List ScheduleBlock
  rolloverTasks : List Task
  deriving DecidableEq, Repr

/-- `tasks.filter(t => t.type === ANCHOR || t.type === INTERRUPT)`. -/
def fixedTasks (tasks : List Task) : List Task :=
  tasks.filter fun t => t.type == TaskType.anchor || t.type == TaskType.interrupt

/-- Step 4 of `rescheduleDay`: the floating, non-completed tasks in placement
order. -/
def floatingSorted (tasks : List Task) : List Task :=
  sortStable taskLt
    (tasks.filter fun t => t.type == TaskType.floating && t.status != TaskStatus.completed)

/-- The gap list handed to the fitting loop. -/
def initialGaps (tasks : List Task) (settings : UserSettings) : List Gap :=
  computeGaps dayStart
    (mergedOccupied (sortStable occLt (fixedPass settings.bufferMinutes (fixedTasks tasks)).2))

/-- The fitting loop run on the sorted floating queue against the initial
gaps, with the sufficient fuel. -/
def fitResult (tasks : List Task) (settings : UserSettings) : Option FitState :=
  let queue := floatingSorted tasks
  fitLoop settings.bufferMinutes (queueMeasure queue) queue
    { gaps := initialGaps tasks settings, blocks := [], rollover := [] }

/-- `rescheduleDay`: locked blocks for the fixed tasks followed by the
fitter's blocks, plus the rollover list. -/
def rescheduleDay (tasks : List Task) (settings : UserSettings) : EngineResult :=
  let fixedBlocks := (fixedPass settings.bufferMinutes (fixedTasks tasks)).1
  match fitResult tasks settings with
  | some st => { blocks := fixedBlocks ++ st.blocks.map Prod.snd, rolloverTasks := st.rollover }
  | none => { blocks := fixedBlocks, rolloverTasks := [] }

/-! ## Specification predicates -/

/-- A JS number that is an actual number (not NaN). -/
def jIsNum (x : JNum) : Prop := x ≠ JNum.nan

/-- The integer behind a numeric `JNum` (0 on NaN; only used under
`jIsNum`). -/
def jval : JNum → Int
  | .num v => v
  | .nan => 0

theorem jval_num (v : Int) : jval (JNum.num v) = v := rfl

/-- Minute `x` lies in the block's half-open `[startTime, endTime)` range.
A block with NaN times contains no minutes. -/
def inBlockPt (x : Int) (b : ScheduleBlock) : Prop :=
  jIsNum b.startTime ∧ jIsNum b.endTime ∧ jval b.startTime ≤ x ∧ x < jval b.endTime

/-- Minute `x` lies in the occupied range `[start, end)`. -/
def inIvlPt (x : Int) (o : Ivl) : Prop :=
  jIsNum o.start ∧ jIsNum o.«end» ∧ jval o.start ≤ x ∧ x < jval o.«end»

instance (x : JNum) : Decidable (jIsNum x) := by
  unfold jIsNum; infer_instance

instance (x : Int) (b : ScheduleBlock) : Decidable (inBlockPt x b) := by
  unfold inBlockPt; infer_instance

instance (x : Int) (o : Ivl) : Decidable (inIvlPt x o) := by
  unfold inIvlPt; infer_instance

/-- The canonical zero-padded clock string for `h` hours, `m` minutes. -/
def clockStr (h m : Nat) : Str :=
  padStart2 (natToStr h) ++ (':' :: padStart2 (natToStr m))

/-! ## Concrete inputs used in witnesses and counterexamples -/

def exSettings (buffer : Int) : UserSettings :=
  { workStart := "09:00".toList, workEnd := "17:00".toList, bufferMinutes := buffer }

def exFloat (id : Str) (dur : Int) (split : Bool) : Task :=
  { id := id, title := id, type := TaskType.floating, priority := 1,
    durationMinutes := dur, isSplittable := split, status := TaskStatus.pending,
    fixedStartTime := none }

def exAnchor (id : Str) (t : Str) (dur : Int) : Task :=
  { id := id, title := id, type := TaskType.anchor, priority := 1,
    durationMinutes := dur, isSplittable := false, status := TaskStatus.pending,
    fixedStartTime := some t }

/-! ## Codec facts (claims C8 and C10) -/

/-- Round trip over one canonical clock string, checked exhaustively. -/
theorem codec_round_aux : ∀ h : Nat, h < 24 → ∀ m : Nat, m < 60 →
    timeToMinutes (clockStr h m) = JNum.num (Int.ofNat (h * 60 + m)) ∧
    minutesToTime (Int.ofNat (h * 60 + m)) = clockStr h m := by
  decide

/-- C8 (amended): `timeToMinutes` never fails: it is a total function into JS
numbers.  On well-formed `"HH:MM"` input it returns `hours*60 + minutes`; on
malformed input it silently returns NaN (no `FormatError` exists in the
code). -/
theorem c8_time_to_minutes_total :
    (∀ h : Nat, h < 24 → ∀ m : Nat, m < 60 →
      timeToMinutes (clockStr h m) = JNum.num (Int.ofNat (h * 60 + m))) ∧
    timeToMinutes ("ab:cd".toList) = JNum.nan ∧
    timeToMinutes ("1030".toList) = JNum.nan ∧
    timeToMinutes ([]) = JNum.nan := by
  refine ⟨fun h hh m hm => (codec_round_aux h hh m hm).1, by decide, by decide, by decide⟩

/-- Witness for C8 at a concrete well-formed input. -/
theorem c8_witness :
    timeToMinutes ("09:30".toList) = JNum.num 570 ∧
    timeToMinutes ("ab:cd".toList) = JNum.nan := by
  exact ⟨c8_time_to_minutes_total.1 9 (by decide) 30 (by decide), c8_time_to_minutes_total.2.1⟩

/-- C8 counterexample to the claim as stated: on the malformed input
`"ab:cd"` the function does not fail with any error — it returns the JS
number NaN to its caller (`NaN`, of JS type `number`). -/
theorem c8_counterexample_returns_nan : timeToMinutes ("ab:cd".toList) = JNum.nan := by
  decide

/-- C10: the time codec round-trips on every minute of the day: for
`0 ≤ n < 1440`, `minutesToTime n` is the canonical zero-padded clock string
and `timeToMinutes` maps it back to `n`. -/
theorem c10_time_codec_round_trip : ∀ n : Nat, n < 1440 →
    minutesToTime (Int.ofNat n) = clockStr (n / 60) (n % 60) ∧
    timeToMinutes (minutesToTime (Int.ofNat n)) = JNum.num (Int.ofNat n) := by
  intro n hn
  have hh : n / 60 < 24 := Nat.div_lt_of_lt_mul (by omega)
  have hm : n % 60 < 60 := Nat.mod_lt _ (by omega)
  have h1 := codec_round_aux (n / 60) hh (n % 60) hm
  have hsum : n / 60 * 60 + n % 60 = n := by
    have := Nat.div_add_mod n 60
    omega
  rw [hsum] at h1
  exact ⟨h1.2, by rw [h1.2]; exact h1.1⟩

/-- Witness for C10 at `n = 570` (`"09:30"`). -/
theorem c10_witness :
    minutesToTime (Int.ofNat 570) = clockStr (570 / 60) (570 % 60) ∧
    timeToMinutes (minutesToTime (Int.ofNat 570)) = JNum.num (Int.ofNat 570) :=
  c10_time_codec_round_trip 570 (by decide)

/-! ## Concrete counterexamples (engine) -/

/-- Two anchors at 09:00 and 09:30, one hour each. -/
def exC1 : List Task := [exAnchor ("a1".toList) ("09:00".toList) 60,
                         exAnchor ("a2".toList) ("09:30".toList) 60]

/-- C1 counterexample: two locked blocks of different tasks overlap — the
anchors at 09:00–10:00 and 09:30–10:30 share minute 570 (09:30).  The code
merges occupied ranges only for gap computation; the emitted locked blocks
themselves are not checked for overlap. -/
theorem c1_counterexample_overlapping_anchors :
    ∃ b1 ∈ (rescheduleDay exC1 (exSettings 0)).blocks,
    ∃ b2 ∈ (rescheduleDay exC1 (exSettings 0)).blocks,
      b1.taskId ≠ b2.taskId ∧ b1.isLocked = true ∧ b2.isLocked = true ∧
      inBlockPt 570 b1 ∧ inBlockPt 570 b2 := by
  decide

/-- One splittable floating task longer than the whole day. -/
def exC2 : List Task := [exFloat ("f1".toList) 1030 true]

/-- C2 counterexample: with a single 1020-minute gap and a splittable
1030-minute task, a "Part 1" block is emitted *and* the 10-minute "Part 2"
remainder (same `taskId`) lands in `rolloverTasks` — the task is represented
in both outputs. -/
theorem c2_counterexample_split_spills_to_rollover :
    (∃ b ∈ (rescheduleDay exC2 (exSettings 0)).blocks, b.taskId = "f1".toList) ∧
    (∃ r ∈ (rescheduleDay exC2 (exSettings 0)).rolloverTasks, r.id = "f1".toList) := by
  decide

/-- An anchor occupying 06:30–23:00 leaves a single 30-minute gap; the
31-minute splittable task then splits into a 30-minute part and a 1-minute
remainder. -/
def exC3 : List Task := [exAnchor ("a1".toList) ("06:30".toList) 990,
                         exFloat ("f1".toList) 31 true]

/-- C3 counterexample: the 31-minute task is split (a "(Part 1)" block
exists), yet it is represented by exactly one block, not two, and the
1-minute Part 2 remainder (far below 15 minutes) rolls over. -/
theorem c3_counterexample_single_part_and_tiny_remainder :
    ((rescheduleDay exC3 (exSettings 0)).blocks.filter
        (fun b => decide (b.taskId = "f1".toList))).length = 1 ∧
    (∃ b ∈ (rescheduleDay exC3 (exSettings 0)).blocks,
        b.taskTitle = ("f1".toList ++ " (Part 1)".toList)) ∧
    (∃ r ∈ (rescheduleDay exC3 (exSettings 0)).rolloverTasks,
        r.id = "f1".toList ∧ r.durationMinutes = 1) := by
  decide

/-- Buffer 15; an anchor occupying (with buffer) 06:29–23:19 leaves one
29-minute gap, so `gapDuration - bufferMinutes = 14`. -/
def exC4 : List Task := [exAnchor ("a1".toList) ("06:44".toList) 980,
                         exFloat ("f1".toList) 40 true]

/-- C4 counterexample: with the largest gap at 29 minutes and buffer 15
(gap minus buffer = 14), the split is *not* rejected: `actualFit =
max(15, 14) = 15`, a 15-minute "Part 1" block is emitted, and the original
40-minute task does not roll over (only its 25-minute remainder does). -/
theorem c4_counterexample_gap_minus_buffer_14_still_splits :
    largestGap (initialGaps exC4 (exSettings 15)) =
      some (0, { start := JNum.num 360, «end» := JNum.num 389, duration := JNum.num 29 }) ∧
    (29 : Int) - 15 = 14 ∧
    (∃ b ∈ (rescheduleDay exC4 (exSettings 15)).blocks,
        b.taskTitle = ("f1".toList ++ " (Part 1)".toList) ∧
        b.startTime = JNum.num 360 ∧ b.endTime = JNum.num 375) ∧
    (∀ r ∈ (rescheduleDay exC4 (exSettings 15)).rolloverTasks, r.durationMinutes ≠ 40) := by
  decide

/-- An anchor before the window start, an anchor just before midnight, and a
floating task filling the gap between them. -/
def exC6 : List Task := [exAnchor ("a1".toList) ("05:00".toList) 60,
                         exAnchor ("a2".toList) ("23:30".toList) 30,
                         exFloat ("f1".toList) 1050 true]

/-- C6 counterexample: the locked block for the 05:00 anchor starts at
minute 300 < 360, and — because the gap scan uses the occupied range's start
(here 23:30) rather than the 23:00 window end — the floating block ends at
minute 1410 > 1380.  Both violate containment in `[06:00, 23:00)`. -/
theorem c6_counterexample_blocks_outside_window :
    (∃ b ∈ (rescheduleDay exC6 (exSettings 0)).blocks,
        b.isLocked = true ∧ b.startTime = JNum.num 300 ∧ (300 : Int) < 360) ∧
    (∃ b ∈ (rescheduleDay exC6 (exSettings 0)).blocks,
        b.isLocked = false ∧ b.endTime = JNum.num 1410 ∧ (1380 : Int) < 1410) := by
  decide

/-- An anchor with no `fixedStartTime`. -/
def exC7 : List Task :=
  [{ id := "a1".toList, title := "a1".toList, type := TaskType.anchor, priority := 1,
     durationMinutes := 60, isSplittable := false, status := TaskStatus.pending,
     fixedStartTime := none }]

/-- C7 counterexample: an Anchor without a `fixedStartTime` is silently
skipped — it appears in neither `blocks` nor `rolloverTasks`, so not every
Anchor/Interrupt task is placed. -/
theorem c7_counterexample_anchor_without_start_skipped :
    (∀ t ∈ exC7, t.type = TaskType.anchor) ∧
    (rescheduleDay exC7 (exSettings 0)).blocks = [] ∧
    (rescheduleDay exC7 (exSettings 0)).rolloverTasks = [] := by
  decide

/-! ## Basic lemmas about the engine's helpers -/

theorem mem_insStable {lt : α → α → Bool} {x y : α} {l : List α} :
    y ∈ insStable lt x l ↔ y = x ∨ y ∈ l := by
  induction l with
  | nil => simp [insStable]
  | cons a l ih =>
    rw [insStable]
    by_cases h : lt x a = true
    · rw [if_pos h]; simp
    · rw [if_neg h]; simp [ih]; tauto

theorem mem_sortStableGo {lt : α → α → Bool} {l acc : List α} {y : α} :
    y ∈ sortStableGo lt acc l ↔ y ∈ acc ∨ y ∈ l := by
  induction l generalizing acc with
  | nil => simp [sortStableGo]
  | cons a l ih => rw [sortStableGo, ih]; simp [mem_insStable]; tauto

theorem mem_sortStable {lt : α → α → Bool} {l : List α} {y : α} :
    y ∈ sortStable lt l ↔ y ∈ l := by
  simp [sortStable, mem_sortStableGo]

theorem firstFit_some {dur : Int} {gaps : List Gap} {i : Nat} {g : Gap}
    (h : firstFit dur gaps = some (i, g)) :
    gaps[i]? = some g ∧ jge g.duration (JNum.num dur) = true := by
  induction gaps generalizing i with
  | nil => simp [firstFit] at h
  | cons a l ih =>
    rw [firstFit] at h
    by_cases ha : jge a.duration (JNum.num dur) = true
    · rw [if_pos ha] at h
      obtain ⟨rfl, rfl⟩ : i = 0 ∧ g = a := by
        simpa [eq_comm] using h
      exact ⟨by simp, ha⟩
    · rw [if_neg ha] at h
      cases hf : firstFit dur l with
      | none => rw [hf] at h; simp at h
      | some p =>
        rw [hf] at h
        obtain ⟨hi, hg⟩ : i = p.1 + 1 ∧ g = p.2 := by
          simpa [eq_comm] using h
        subst hi; subst hg
        obtain ⟨h1, h2⟩ := ih (i := p.1) (by rw [hf])
        exact ⟨by simpa using h1, h2⟩

theorem firstFit_none {dur : Int} {gaps : List Gap}
    (h : firstFit dur gaps = none) :
    ∀ g ∈ gaps, jge g.duration (JNum.num dur) = false := by
  induction gaps with
  | nil => simp
  | cons a l ih =>
    rw [firstFit] at h
    by_cases ha : jge a.duration (JNum.num dur) = true
    · rw [if_pos ha] at h; simp at h
    · rw [if_neg ha] at h
      intro g hg
      rcases List.mem_cons.mp hg with rfl | hgl
      · exact Bool.eq_false_iff.mpr ha
      · cases hf : firstFit dur l with
        | none => exact ih hf g hgl
        | some p => rw [hf] at h; simp at h

theorem largestGap_mem {gaps : List Gap} {li : Nat} {lg : Gap}
    (h : largestGap gaps = some (li, lg)) : gaps[li]? = some lg := by
  have hmem : (li, lg) ∈ sortStable gapDescLt gaps.enum := by
    cases hs : sortStable gapDescLt gaps.enum with
    | nil => rw [largestGap, hs] at h; simp at h
    | cons a l =>
      rw [largestGap, hs] at h
      have ha : a = (li, lg) := by simpa using h
      subst ha
      exact List.mem_cons_self _ _
  exact List.mk_mem_enum_iff_getElem?.mp (mem_sortStable.mp hmem)

/-! ## Equations for the three outcomes of a loop iteration -/

theorem fitStep_place {buffer : Int} {task : Task} {queue : List Task} {st : FitState}
    {i : Nat} {gap : Gap} (h : firstFit task.durationMinutes st.gaps = some (i, gap)) :
    fitStep buffer task queue st =
      (queue,
       { gaps := st.gaps.set i { gap with
           start := jadd gap.start (JNum.num (task.durationMinutes + buffer)),
           duration := jsub gap.duration (JNum.num (task.durationMinutes + buffer)) },
         blocks := st.blocks ++ [(i,
           { id := "block-".toList ++ task.id ++ "-x".toList,
             taskId := task.id, taskTitle := task.title, taskType := task.type,
             startTime := gap.start,
             endTime := jadd gap.start (JNum.num task.durationMinutes),
             isLocked := false, priority := task.priority,
             status := TaskStatus.scheduled })],
         rollover := st.rollover }) := by
  simp [fitStep, h]

theorem fitStep_split {buffer : Int} {task : Task} {queue : List Task} {st : FitState}
    {li : Nat} {lg : Gap} {gd : Int}
    (h1 : firstFit task.durationMinutes st.gaps = none)
    (h2 : task.isSplittable = true) (h3 : 30 < task.durationMinutes)
    (h4 : largestGap st.gaps = some (li, lg))
    (h5 : lg.duration = JNum.num gd) (h6 : 15 ≤ gd) :
    fitStep buffer task queue st =
      ({ task with
           title := task.title ++ " (Part 2)".toList,
           durationMinutes := task.durationMinutes - max 15 (gd - buffer) } :: queue,
       { gaps := st.gaps.set li { lg with
           start := jadd lg.start (JNum.num (max 15 (gd - buffer) + buffer)),
           duration := jsub lg.duration (JNum.num (max 15 (gd - buffer) + buffer)) },
         blocks := st.blocks ++ [(li,
           { id := "block-".toList ++ task.id ++ "-partA".toList,
             taskId := task.id,
             taskTitle := task.title ++ " (Part 1)".toList,
             taskType := task.type,
             startTime := lg.start,
             endTime := jadd lg.start (JNum.num (max 15 (gd - buffer))),
             isLocked := false, priority := task.priority,
             status := TaskStatus.scheduled })],
         rollover := st.rollover }) := by
  have hnotlt : ¬ (max 15 (gd - buffer) < 15) := by
    simp only [not_lt]
    exact le_max_left _ _
  simp [fitStep, h1, h2, h3, h4, h5, if_pos h6, if_neg hnotlt]

theorem fitStep_rollover_of_no_split {buffer : Int} {task : Task} {queue : List Task}
    {st : FitState}
    (h1 : firstFit task.durationMinutes st.gaps = none)
    (h2 : (task.isSplittable && decide (30 < task.durationMinutes)) = false) :
    fitStep buffer task queue st = (queue, { st with rollover := st.rollover ++ [task] }) := by
  simp [fitStep, h1, h2]

theorem fitStep_rollover_of_no_gap {buffer : Int} {task : Task} {queue : List Task}
    {st : FitState}
    (h1 : firstFit task.durationMinutes st.gaps = none)
    (h2 : (task.isSplittable && decide (30 < task.durationMinutes)) = true)
    (h3 : largestGap st.gaps = none) :
    fitStep buffer task queue st = (queue, { st with rollover := st.rollover ++ [task] }) := by
  simp [fitStep, h1, h2, h3]

theorem fitStep_rollover_of_nan {buffer : Int} {task : Task} {queue : List Task}
    {st : FitState} {li : Nat} {lg : Gap}
    (h1 : firstFit task.durationMinutes st.gaps = none)
    (h2 : (task.isSplittable && decide (30 < task.durationMinutes)) = true)
    (h3 : largestGap st.gaps = some (li, lg)) (h4 : lg.duration = JNum.nan) :
    fitStep buffer task queue st = (queue, { st with rollover := st.rollover ++ [task] }) := by
  simp [fitStep, h1, h2, h3, h4]

theorem fitStep_rollover_of_small {buffer : Int} {task : Task} {queue : List Task}
    {st : FitState} {li : Nat} {lg : Gap} {gd : Int}
    (h1 : firstFit task.durationMinutes st.gaps = none)
    (h2 : (task.isSplittable && decide (30 < task.durationMinutes)) = true)
    (h3 : largestGap st.gaps = some (li, lg)) (h4 : lg.duration = JNum.num gd)
    (h5 : gd < 15) :
    fitStep buffer task queue st = (queue, { st with rollover := st.rollover ++ [task] }) := by
  have : ¬ (15 ≤ gd) := not_le.mpr h5
  simp [fitStep, h1, h2, h3, h4, this]

/-! ## Termination of the fitting loop (claim C9) -/

theorem queueMeasure_nil : queueMeasure [] = 0 := rfl

theorem queueMeasure_cons (t : Task) (q : List Task) :
    queueMeasure (t :: q) = t.durationMinutes.toNat + 1 + queueMeasure q := by
  simp [queueMeasure]

/-- Every iteration strictly decreases the queue measure: placement and
rollover drop a task, and a split replaces a task by a strictly shorter
remainder. -/
theorem fitStep_measure (buffer : Int) (task : Task) (queue : List Task) (st : FitState) :
    queueMeasure (fitStep buffer task queue st).1 < queueMeasure (task :: queue) := by
  rw [queueMeasure_cons]
  cases hf : firstFit task.durationMinutes st.gaps with
  | some p =>
    obtain ⟨i, gap⟩ := p
    rw [fitStep_place hf]
    dsimp only
    omega
  | none =>
    by_cases h2 : (task.isSplittable && decide (30 < task.durationMinutes)) = true
    · cases hl : largestGap st.gaps with
      | none => rw [fitStep_rollover_of_no_gap hf h2 hl]; dsimp only; omega
      | some p =>
        obtain ⟨li, lg⟩ := p
        cases hd : lg.duration with
        | nan => rw [fitStep_rollover_of_nan hf h2 hl hd]; dsimp only; omega
        | num gd =>
          by_cases h6 : 15 ≤ gd
          · obtain ⟨hsp, h30⟩ : task.isSplittable = true ∧ 30 < task.durationMinutes := by
              simpa using h2
            rw [fitStep_split hf hsp h30 hl hd h6]
            dsimp only
            rw [queueMeasure_cons]
            dsimp only
            have h15 : 15 ≤ max 15 (gd - buffer) := le_max_left _ _
            omega
          · rw [fitStep_rollover_of_small hf h2 hl hd (not_le.mp h6)]; dsimp only; omega
    · rw [fitStep_rollover_of_no_split hf (Bool.not_eq_true _ ▸ h2)]
      dsimp only
      omega

/-- With fuel at least the queue measure, the loop always completes. -/
theorem fitLoop_isSome_of_fuel (buffer : Int) :
    ∀ (fuel : Nat) (q : List Task) (st : FitState), queueMeasure q ≤ fuel →
      (fitLoop buffer fuel q st).isSome = true := by
  intro fuel
  induction fuel with
  | zero =>
    intro q st h
    cases q with
    | nil => simp [fitLoop]
    | cons t q => rw [queueMeasure_cons] at h; omega
  | succ fuel ih =>
    intro q st h
    cases q with
    | nil => simp [fitLoop]
    | cons t q =>
      rw [fitLoop]
      refine ih _ _ ?_
      have := fitStep_measure buffer t q st
      omega

/-- The fitting loop of `rescheduleDay` always returns a state. -/
theorem fitResult_isSome (tasks : List Task) (settings : UserSettings) :
    (fitResult tasks settings).isSome = true :=
  fitLoop_isSome_of_fuel _ _ _ _ (Nat.le_refl _)

/-- C9: the greedy fitting loop terminates on every input: run with the fuel
`rescheduleDay` supplies (the queue measure, which every iteration strictly
decreases — rollover and placement drop a task, a split replaces a task by a
strictly shorter Part 2 remainder), it always produces a result, so the
unreachable out-of-fuel branch is never taken. -/
theorem c9_fitting_loop_terminates (tasks : List Task) (settings : UserSettings) :
    (fitResult tasks settings).isSome = true ∧
    ∀ (buffer : Int) (task : Task) (queue : List Task) (st : FitState),
      queueMeasure (fitStep buffer task queue st).1 < queueMeasure (task :: queue) :=
  ⟨fitLoop_isSome_of_fuel _ _ _ _ (Nat.le_refl _), fun b t q st => fitStep_measure b t q st⟩

/-! ## Abbreviations for the three iteration outcomes -/

/-- The block emitted by a whole placement. -/
def placedBlock (task : Task) (gap : Gap) : ScheduleBlock :=
  { id := "block-".toList ++ task.id ++ "-x".toList,
    taskId := task.id, taskTitle := task.title, taskType := task.type,
    startTime := gap.start, endTime := jadd gap.start (JNum.num task.durationMinutes),
    isLocked := false, priority := task.priority, status := TaskStatus.scheduled }

/-- A gap after `c` minutes are consumed from its front. -/
def consumedGap (c : Int) (gap : Gap) : Gap :=
  { gap with start := jadd gap.start (JNum.num c), duration := jsub gap.duration (JNum.num c) }

/-- The "Part 1" block emitted by a split with fit `af`. -/
def partABlock (task : Task) (lg : Gap) (af : Int) : ScheduleBlock :=
  { id := "block-".toList ++ task.id ++ "-partA".toList,
    taskId := task.id, taskTitle := task.title ++ " (Part 1)".toList,
    taskType := task.type, startTime := lg.start,
    endTime := jadd lg.start (JNum.num af), isLocked := false,
    priority := task.priority, status := TaskStatus.scheduled }

/-- The "Part 2" remainder task of a split with fit `af`. -/
def partBTask (task : Task) (af : Int) : Task :=
  { task with
    title := task.title ++ " (Part 2)".toList,
    durationMinutes := task.durationMinutes - af }

/-- Every iteration is a placement, a split, or a rollover, with the stated
state updates. -/
theorem fitStep_cases (buffer : Int) (task : Task) (queue : List Task) (st : FitState) :
    (∃ i gap, firstFit task.durationMinutes st.gaps = some (i, gap) ∧
      fitStep buffer task queue st =
        (queue, { gaps := st.gaps.set i (consumedGap (task.durationMinutes + buffer) gap),
                  blocks := st.blocks ++ [(i, placedBlock task gap)],
                  rollover := st.rollover })) ∨
    (∃ li lg gd, firstFit task.durationMinutes st.gaps = none ∧
      task.isSplittable = true ∧ 30 < task.durationMinutes ∧
      largestGap st.gaps = some (li, lg) ∧ lg.duration = JNum.num gd ∧ 15 ≤ gd ∧
      fitStep buffer task queue st =
        (partBTask task (max 15 (gd - buffer)) :: queue,
         { gaps := st.gaps.set li (consumedGap (max 15 (gd - buffer) + buffer) lg),
           blocks := st.blocks ++ [(li, partABlock task lg (max 15 (gd - buffer)))],
           rollover := st.rollover })) ∨
    (fitStep buffer task queue st = (queue, { st with rollover := st.rollover ++ [task] })) := by
  cases hf : firstFit task.durationMinutes st.gaps with
  | some p =>
    obtain ⟨i, gap⟩ := p
    exact Or.inl ⟨i, gap, rfl, by rw [fitStep_place hf]; simp [placedBlock, consumedGap]⟩
  | none =>
    by_cases h2 : (task.isSplittable && decide (30 < task.durationMinutes)) = true
    · cases hl : largestGap st.gaps with
      | none => exact Or.inr (Or.inr (fitStep_rollover_of_no_gap hf h2 hl))
      | some p =>
        obtain ⟨li, lg⟩ := p
        cases hd : lg.duration with
        | nan => exact Or.inr (Or.inr (fitStep_rollover_of_nan hf h2 hl hd))
        | num gd =>
          by_cases h6 : 15 ≤ gd
          · obtain ⟨hsp, h30⟩ : task.isSplittable = true ∧ 30 < task.durationMinutes := by
              simpa using h2
            refine Or.inr (Or.inl ⟨li, lg, gd, rfl, hsp, h30, rfl, hd, h6, ?_⟩)
            rw [fitStep_split hf hsp h30 hl hd h6]
            simp [partBTask, partABlock, consumedGap]
          · exact Or.inr (Or.inr (fitStep_rollover_of_small hf h2 hl hd (not_le.mp h6)))
    · exact Or.inr (Or.inr (fitStep_rollover_of_no_split hf (Bool.not_eq_true _ ▸ h2)))

/-! ## The fitter only appends to blocks and rollover -/

theorem fitLoop_mono {buffer : Int} {fuel : Nat} {q : List Task} {st st' : FitState}
    (h : fitLoop buffer fuel q st = some st') :
    (∃ nb, st'.blocks = st.blocks ++ nb) ∧ (∃ nr, st'.rollover = st.rollover ++ nr) := by
  induction fuel generalizing q st with
  | zero =>
    cases q with
    | nil =>
      rw [fitLoop] at h
      cases h
      exact ⟨⟨[], by simp⟩, ⟨[], by simp⟩⟩
    | cons t q => rw [fitLoop] at h; cases h
  | succ fuel ih =>
    cases q with
    | nil =>
      rw [fitLoop] at h
      cases h
      exact ⟨⟨[], by simp⟩, ⟨[], by simp⟩⟩
    | cons t q =>
      rw [fitLoop] at h
      rcases fitStep_cases buffer t q st with ⟨i, gap, _, heq⟩ |
        ⟨li, lg, gd, _, _, _, _, _, _, heq⟩ | heq <;>
        rw [heq] at h <;> dsimp only at h <;>
        obtain ⟨⟨nb, hb⟩, ⟨nr, hr⟩⟩ := ih h <;> dsimp only at hb hr
      · exact ⟨⟨(i, placedBlock t gap) :: nb, by rw [hb]; simp⟩, ⟨nr, hr⟩⟩
      · exact ⟨⟨(li, partABlock t lg (max 15 (gd - buffer))) :: nb, by rw [hb]; simp⟩, ⟨nr, hr⟩⟩
      · exact ⟨⟨nb, hb⟩, ⟨t :: nr, by rw [hr]; simp⟩⟩

/-! ## Representation of every queued task (claim C2) -/

theorem fitLoop_represents {buffer : Int} {fuel : Nat} {q : List Task} {st st' : FitState}
    (h : fitLoop buffer fuel q st = some st') :
    ∀ t ∈ q, (∃ p ∈ st'.blocks, p.2.taskId = t.id) ∨ (∃ r ∈ st'.rollover, r.id = t.id) := by
  induction fuel generalizing q st with
  | zero =>
    cases q with
    | nil => intro t ht; cases ht
    | cons t q => rw [fitLoop] at h; cases h
  | succ fuel ih =>
    cases q with
    | nil => intro t ht; cases ht
    | cons a q =>
      rw [fitLoop] at h
      intro t ht
      rcases fitStep_cases buffer a q st with ⟨i, gap, _, heq⟩ |
        ⟨li, lg, gd, _, _, _, _, _, _, heq⟩ | heq <;> rw [heq] at h <;> dsimp only at h
      · rcases List.mem_cons.mp ht with rfl | htq
        · obtain ⟨⟨nb, hb⟩, _⟩ := fitLoop_mono h
          dsimp only at hb
          exact Or.inl ⟨(i, placedBlock t gap), by rw [hb]; simp, rfl⟩
        · exact ih h t htq
      · rcases List.mem_cons.mp ht with rfl | htq
        · obtain ⟨⟨nb, hb⟩, _⟩ := fitLoop_mono h
          dsimp only at hb
          exact Or.inl ⟨(li, partABlock t lg (max 15 (gd - buffer))), by rw [hb]; simp, rfl⟩
        · exact ih h t (List.mem_cons_of_mem _ htq)
      · rcases List.mem_cons.mp ht with rfl | htq
        · obtain ⟨_, ⟨nr, hr⟩⟩ := fitLoop_mono h
          dsimp only at hr
          exact Or.inr ⟨t, by rw [hr]; simp, rfl⟩
        · exact ih h t htq

/-- The fitter's index-tagged blocks, as run by `rescheduleDay`. -/
def floatingPlacements (tasks : List Task) (settings : UserSettings) :
    List (Nat × ScheduleBlock) :=
  match fitResult tasks settings with
  | some st => st.blocks
  | none => []

/-- The rollover list, as returned by `rescheduleDay`. -/
def rolloverList (tasks : List Task) (settings : UserSettings) : List Task :=
  match fitResult tasks settings with
  | some st => st.rollover
  | none => []

theorem rescheduleDay_parts (tasks : List Task) (settings : UserSettings) :
    rescheduleDay tasks settings =
      { blocks := (fixedPass settings.bufferMinutes (fixedTasks tasks)).1
          ++ (floatingPlacements tasks settings).map Prod.snd,
        rolloverTasks := rolloverList tasks settings } := by
  rw [rescheduleDay, floatingPlacements, rolloverList]
  cases fitResult tasks settings <;> simp

/-- C2 (amended): every Floating task whose status is not Completed is
represented in at least one of the two outputs — by a block (whole or Part 1
of a split) or by a rollover entry carrying its id.  (It can be represented
in both when a split's Part 2 remainder rolls over; see the
counterexample.) -/
theorem c2_floating_tasks_represented (tasks : List Task) (settings : UserSettings) :
    ∀ t ∈ tasks, t.type = TaskType.floating → t.status ≠ TaskStatus.completed →
      (∃ b ∈ (rescheduleDay tasks settings).blocks, b.taskId = t.id) ∨
      (∃ r ∈ (rescheduleDay tasks settings).rolloverTasks, r.id = t.id) := by
  intro t ht hty hst
  obtain ⟨st', hres⟩ := Option.isSome_iff_exists.mp (fitResult_isSome tasks settings)
  have hfl : fitLoop settings.bufferMinutes (queueMeasure (floatingSorted tasks))
      (floatingSorted tasks)
      { gaps := initialGaps tasks settings, blocks := [], rollover := [] } = some st' := by
    simpa [fitResult] using hres
  have hq : t ∈ floatingSorted tasks := by
    rw [floatingSorted, mem_sortStable]
    refine List.mem_filter.mpr ⟨ht, ?_⟩
    have h1 : (t.type == TaskType.floating) = true := by rw [hty]; decide
    have h2 : (t.status != TaskStatus.completed) = true := by
      cases h' : t.status
      case completed => exact absurd h' hst
      all_goals decide
    simp [h1, h2]
  have hrep := fitLoop_represents hfl t hq
  rw [rescheduleDay_parts]
  have hfp : floatingPlacements tasks settings = st'.blocks := by
    rw [floatingPlacements, hres]
  have hrl : rolloverList tasks settings = st'.rollover := by
    rw [rolloverList, hres]
  rcases hrep with ⟨p, hp, hpid⟩ | ⟨r, hr, hrid⟩
  · exact Or.inl ⟨p.2, by simp only [hfp]; exact List.mem_append_right _ (List.mem_map_of_mem _ hp), hpid⟩
  · exact Or.inr ⟨r, by simp only [hrl]; exact hr, hrid⟩

/-- Witness for C2 on a concrete floating task. -/
theorem c2_witness :
    ((exFloat ("f1".toList) 1030 true) ∈ exC2 ∧
      (exFloat ("f1".toList) 1030 true).type = TaskType.floating ∧
      (exFloat ("f1".toList) 1030 true).status ≠ TaskStatus.completed) ∧
    ((∃ b ∈ (rescheduleDay exC2 (exSettings 0)).blocks,
        b.taskId = (exFloat ("f1".toList) 1030 true).id) ∨
     (∃ r ∈ (rescheduleDay exC2 (exSettings 0)).rolloverTasks,
        r.id = (exFloat ("f1".toList) 1030 true).id)) :=
  ⟨⟨by decide, by decide, by decide⟩,
   c2_floating_tasks_represented exC2 (exSettings 0) _ (by decide) (by decide) (by decide)⟩

/-! ## Fixed tasks (claim C7) -/

theorem fixedPass_cons_none {buffer : Int} {a : Task} {ts : List Task}
    (h : a.fixedStartTime = none) :
    fixedPass buffer (a :: ts) = fixedPass buffer ts := by
  simp [fixedPass, h]

theorem fixedPass_cons_empty {buffer : Int} {a : Task} {ts : List Task}
    (h : a.fixedStartTime = some []) :
    fixedPass buffer (a :: ts) = fixedPass buffer ts := by
  simp [fixedPass, h]

theorem fixedPass_cons_some {buffer : Int} {a : Task} {ts : List Task} {s : Str}
    (h : a.fixedStartTime = some s) (hne : s ≠ []) :
    fixedPass buffer (a :: ts) =
      ({ id := "block-".toList ++ a.id, taskId := a.id, taskTitle := a.title,
         taskType := a.type, startTime := timeToMinutes s,
         endTime := jadd (timeToMinutes s) (JNum.num a.durationMinutes),
         isLocked := true, priority := a.priority,
         status := TaskStatus.scheduled } :: (fixedPass buffer ts).1,
       { start := jmax (JNum.num 0) (jsub (timeToMinutes s) (JNum.num buffer)),
         «end» := jmin (JNum.num 1440)
           (jadd (jadd (timeToMinutes s) (JNum.num a.durationMinutes)) (JNum.num buffer)) }
         :: (fixedPass buffer ts).2) := by
  simp [fixedPass, h, hne]

/-- Every fixed task with a truthy `fixedStartTime` gets its locked block. -/
theorem fixedPass_places {buffer : Int} {ts : List Task} {t : Task} (ht : t ∈ ts)
    {s : Str} (hs : t.fixedStartTime = some s) (hne : s ≠ []) :
    ({ id := "block-".toList ++ t.id, taskId := t.id, taskTitle := t.title,
       taskType := t.type, startTime := timeToMinutes s,
       endTime := jadd (timeToMinutes s) (JNum.num t.durationMinutes),
       isLocked := true, priority := t.priority,
       status := TaskStatus.scheduled } : ScheduleBlock) ∈ (fixedPass buffer ts).1 := by
  induction ts with
  | nil => cases ht
  | cons a ts ih =>
    rcases List.mem_cons.mp ht with rfl | hmem
    · rw [fixedPass_cons_some hs hne]
      exact List.mem_cons_self _ _
    · cases haf : a.fixedStartTime with
      | none => rw [fixedPass_cons_none haf]; exact ih hmem
      | some s' =>
        rcases eq_or_ne s' [] with rfl | hne'
        · rw [fixedPass_cons_empty haf]; exact ih hmem
        · rw [fixedPass_cons_some haf hne']
          exact List.mem_cons_of_mem _ (ih hmem)

/-- Every block of the fixed pass is locked. -/
theorem fixedPass_locked {buffer : Int} {ts : List Task} :
    ∀ b ∈ (fixedPass buffer ts).1, b.isLocked = true := by
  induction ts with
  | nil => intro b hb; cases hb
  | cons a ts ih =>
    intro b hb
    rcases haf : a.fixedStartTime with _ | s'
    · rw [fixedPass_cons_none haf] at hb; exact ih b hb
    · rcases eq_or_ne s' [] with rfl | hne'
      · rw [fixedPass_cons_empty haf] at hb; exact ih b hb
      · rw [fixedPass_cons_some haf hne'] at hb
        rcases List.mem_cons.mp hb with rfl | hmem
        · rfl
        · exact ih b hmem

theorem floatingPlacements_eq {tasks : List Task} {settings : UserSettings} {st : FitState}
    (h : fitResult tasks settings = some st) :
    floatingPlacements tasks settings = st.blocks := by
  simp [floatingPlacements, h]

theorem rolloverList_eq {tasks : List Task} {settings : UserSettings} {st : FitState}
    (h : fitResult tasks settings = some st) :
    rolloverList tasks settings = st.rollover := by
  simp [rolloverList, h]

/-- The fitter never moves a non-floating task into rollover: rollover
entries all come from the floating queue and split remainders keep the
parent's type. -/
theorem fitLoop_rollover_floating {buffer : Int} {fuel : Nat} {q : List Task}
    {st st' : FitState} (h : fitLoop buffer fuel q st = some st')
    (hq : ∀ t ∈ q, t.type = TaskType.floating)
    (hr : ∀ t ∈ st.rollover, t.type = TaskType.floating) :
    ∀ t ∈ st'.rollover, t.type = TaskType.floating := by
  induction fuel generalizing q st with
  | zero =>
    cases q with
    | nil => rw [fitLoop] at h; cases h; exact hr
    | cons t q => rw [fitLoop] at h; cases h
  | succ fuel ih =>
    cases q with
    | nil => rw [fitLoop] at h; cases h; exact hr
    | cons a q =>
      rw [fitLoop] at h
      rcases fitStep_cases buffer a q st with ⟨i, gap, _, heq⟩ |
        ⟨li, lg, gd, _, _, _, _, _, _, heq⟩ | heq <;> rw [heq] at h <;> dsimp only at h
      · exact ih h (fun t htq => hq t (List.mem_cons_of_mem _ htq)) hr
      · refine ih h ?_ hr
        intro t htq
        rcases List.mem_cons.mp htq with rfl | htq2
        · exact hq a (List.mem_cons_self _ _)
        · exact hq t (List.mem_cons_of_mem _ htq2)
      · refine ih h (fun t htq => hq t (List.mem_cons_of_mem _ htq)) ?_
        intro t htr
        rcases List.mem_append.mp htr with htr2 | htr2
        · exact hr t htr2
        · rcases List.mem_singleton.mp htr2 with rfl
          exact hq t (List.mem_cons_self _ _)

/-- Every task in the sorted floating queue is floating. -/
theorem floatingSorted_floating (tasks : List Task) :
    ∀ t ∈ floatingSorted tasks, t.type = TaskType.floating := by
  intro t htq
  rw [floatingSorted, mem_sortStable] at htq
  have hb := (List.mem_filter.mp htq).2
  have h1 : (t.type == TaskType.floating) = true := by
    rcases Bool.and_eq_true_iff.mp hb with ⟨h1, _⟩
    exact h1
  cases h2 : t.type <;> rw [h2] at h1 <;> first | rfl | exact absurd h1 (by decide)

/-- C7 (amended): every Anchor/Interrupt task that carries a present,
non-empty `fixedStartTime` appears in `blocks` as a locked block at
`[parsed start, start + duration)`; and no Anchor or Interrupt ever appears
in `rolloverTasks` (the rollover list holds only Floating tasks).  Fixed
tasks *without* a start time are silently skipped (see the
counterexample). -/
theorem c7_fixed_tasks_with_start_placed (tasks : List Task) (settings : UserSettings) :
    (∀ t ∈ tasks, (t.type = TaskType.anchor ∨ t.type = TaskType.interrupt) →
      ∀ s, t.fixedStartTime = some s → s ≠ [] →
        ∃ b ∈ (rescheduleDay tasks settings).blocks,
          b.taskId = t.id ∧ b.isLocked = true ∧
          b.startTime = timeToMinutes s ∧
          b.endTime = jadd (timeToMinutes s) (JNum.num t.durationMinutes)) ∧
    (∀ r ∈ (rescheduleDay tasks settings).rolloverTasks, r.type = TaskType.floating) := by
  constructor
  · intro t ht hty s hs hne
    have htf : t ∈ fixedTasks tasks := by
      refine List.mem_filter.mpr ⟨ht, ?_⟩
      rcases hty with h | h <;> rw [h] <;> decide
    have hmem := @fixedPass_places settings.bufferMinutes _ _ htf _ hs hne
    rw [rescheduleDay_parts]
    exact ⟨_, List.mem_append_left _ hmem, rfl, rfl, rfl, rfl⟩
  · intro r hr
    obtain ⟨st2, hres⟩ := Option.isSome_iff_exists.mp (fitResult_isSome tasks settings)
    have hfl : fitLoop settings.bufferMinutes (queueMeasure (floatingSorted tasks))
        (floatingSorted tasks)
        { gaps := initialGaps tasks settings, blocks := [], rollover := [] } = some st2 := by
      simpa [fitResult] using hres
    have hmain := fitLoop_rollover_floating hfl (floatingSorted_floating tasks)
      (by intro t h2; cases h2)
    rw [rescheduleDay_parts] at hr
    dsimp only at hr
    rw [rolloverList_eq hres] at hr
    exact hmain r hr

/-- Witness for C7 on a concrete anchor input. -/
theorem c7_witness :
    ((exAnchor ("a1".toList) ("09:00".toList) 60) ∈ exC1 ∧
      (exAnchor ("a1".toList) ("09:00".toList) 60).type = TaskType.anchor ∧
      (exAnchor ("a1".toList) ("09:00".toList) 60).fixedStartTime = some ("09:00".toList)) ∧
    (∃ b ∈ (rescheduleDay exC1 (exSettings 0)).blocks,
      b.taskId = "a1".toList ∧ b.isLocked = true ∧
      b.startTime = timeToMinutes ("09:00".toList) ∧
      b.endTime = jadd (timeToMinutes ("09:00".toList)) (JNum.num 60)) :=
  ⟨⟨by decide, by decide, by decide⟩,
   (c7_fixed_tasks_with_start_placed exC1 (exSettings 0)).1
     (exAnchor ("a1".toList) ("09:00".toList) 60) (by decide)
     (Or.inl (by decide)) ("09:00".toList) (by decide) (by decide)⟩

/-! ## Duration bookkeeping (claim C3) -/

/-- Total minutes of the tasks with a given id in a task list. -/
def idDur (id : Str) (l : List Task) : Int :=
  ((l.filter fun t => decide (t.id = id)).map fun t => t.durationMinutes).sum

/-- Total minutes of the tagged blocks whose `taskId` is a given id. -/
def idBlockDur (id : Str) (l : List (Nat × ScheduleBlock)) : Int :=
  ((l.filter fun p => decide (p.2.taskId = id)).map
    fun p => jval p.2.endTime - jval p.2.startTime).sum

theorem idDur_nil (id : Str) : idDur id [] = 0 := rfl

theorem idDur_cons (id : Str) (t : Task) (l : List Task) :
    idDur id (t :: l) = (if t.id = id then t.durationMinutes else 0) + idDur id l := by
  by_cases h : t.id = id <;> simp [idDur, List.filter_cons, h]

theorem idDur_append (id : Str) (l1 l2 : List Task) :
    idDur id (l1 ++ l2) = idDur id l1 + idDur id l2 := by
  simp [idDur, List.filter_append]

theorem idBlockDur_append (id : Str) (l1 l2 : List (Nat × ScheduleBlock)) :
    idBlockDur id (l1 ++ l2) = idBlockDur id l1 + idBlockDur id l2 := by
  simp [idBlockDur, List.filter_append]

theorem idBlockDur_single (id : Str) (p : Nat × ScheduleBlock) :
    idBlockDur id [p] =
      if p.2.taskId = id then jval p.2.endTime - jval p.2.startTime else 0 := by
  by_cases h : p.2.taskId = id <;> simp [idBlockDur, h]

theorem jIsNum_jadd_iff {a b : JNum} : jIsNum (jadd a b) ↔ jIsNum a ∧ jIsNum b := by
  cases a <;> cases b <;> simp [jadd, jIsNum]

theorem jIsNum_jsub_iff {a b : JNum} : jIsNum (jsub a b) ↔ jIsNum a ∧ jIsNum b := by
  cases a <;> cases b <;> simp [jsub, jIsNum]

theorem jge_true {x : JNum} {d : Int} (h : jge x (JNum.num d) = true) :
    ∃ v, x = JNum.num v ∧ d ≤ v := by
  cases x with
  | nan => simp [jge] at h
  | num v => exact ⟨v, rfl, by simpa [jge] using h⟩

/-- Wherever a gap's cached duration is numeric, so is its start: every gap
is built with `duration = end - start`. -/
def gapsNumOk (gaps : List Gap) : Prop :=
  ∀ g ∈ gaps, jIsNum g.duration → jIsNum g.start

theorem computeGaps_shape (cursor : JNum) (occs : List Ivl) :
    ∀ g ∈ computeGaps cursor occs, g.duration = jsub g.«end» g.start := by
  induction occs generalizing cursor with
  | nil =>
    intro g hg
    rw [computeGaps] at hg
    split at hg
    · rcases List.mem_singleton.mp hg with rfl; rfl
    · cases hg
  | cons o rest ih =>
    intro g hg
    rw [computeGaps] at hg
    split at hg
    · exact ih _ g hg
    · split at hg
      · rcases List.mem_cons.mp hg with rfl | hgm
        · rfl
        · exact ih _ g hgm
      · exact ih _ g hg

theorem computeGaps_numOk (cursor : JNum) (occs : List Ivl) :
    gapsNumOk (computeGaps cursor occs) := by
  intro g hg hd
  rw [computeGaps_shape cursor occs g hg] at hd
  exact (jIsNum_jsub_iff.mp hd).2

theorem gapsNumOk_set {gaps : List Gap} (h : gapsNumOk gaps) {i : Nat} {gap : Gap}
    (hmem : gaps[i]? = some gap) (c : Int) :
    gapsNumOk (gaps.set i (consumedGap c gap)) := by
  intro g hg hd
  rcases List.mem_or_eq_of_mem_set hg with hmem2 | rfl
  · exact h g hmem2 hd
  · have hdm : jIsNum gap.duration := by
      have h2 : jIsNum (jsub gap.duration (JNum.num c)) := hd
      exact (jIsNum_jsub_iff.mp h2).1
    have hs := h gap (List.getElem?_mem hmem) hdm
    show jIsNum (jadd gap.start (JNum.num c))
    rw [jIsNum_jadd_iff]
    exact ⟨hs, by simp [jIsNum]⟩

/-- The per-id duration ledger is conserved by the fitting loop: minutes in
the queue end up either in blocks (as `endTime - startTime`) or in
rollover. -/
theorem fitLoop_conserves {buffer : Int} {fuel : Nat} {q : List Task} {st st' : FitState}
    (h : fitLoop buffer fuel q st = some st') (hg : gapsNumOk st.gaps) (id : Str) :
    idBlockDur id st'.blocks + idDur id st'.rollover =
      idDur id q + idBlockDur id st.blocks + idDur id st.rollover := by
  induction fuel generalizing q st with
  | zero =>
    cases q with
    | nil => rw [fitLoop] at h; cases h; rw [idDur_nil]; omega
    | cons t q => rw [fitLoop] at h; cases h
  | succ fuel ih =>
    cases q with
    | nil => rw [fitLoop] at h; cases h; rw [idDur_nil]; omega
    | cons a q =>
      rw [fitLoop] at h
      rcases fitStep_cases buffer a q st with ⟨i, gap, hff, heq⟩ |
        ⟨li, lg, gd, hff, hsp, h30, hlg, hld, h15, heq⟩ | heq <;>
        rw [heq] at h <;> dsimp only at h
      · -- whole placement
        obtain ⟨v, hv, _⟩ := jge_true (firstFit_some hff).2
        have hs : jIsNum gap.start :=
          hg gap (List.getElem?_mem (firstFit_some hff).1) (by rw [hv]; simp [jIsNum])
        obtain ⟨sv, hsv⟩ : ∃ sv, gap.start = JNum.num sv := by
          cases hgs : gap.start with
          | nan => exact absurd hgs hs
          | num w => exact ⟨w, rfl⟩
        have hg2 : gapsNumOk (st.gaps.set i (consumedGap (a.durationMinutes + buffer) gap)) :=
          gapsNumOk_set hg (firstFit_some hff).1 _
        have hrec := ih h hg2
        dsimp only at hrec
        rw [idBlockDur_append, idBlockDur_single] at hrec
        rw [idDur_cons]
        have hval : jval (placedBlock a gap).endTime - jval (placedBlock a gap).startTime
            = a.durationMinutes := by
          simp [placedBlock, hsv, jadd, jval]
        have hid : (placedBlock a gap).taskId = a.id := rfl
        rw [hid, hval] at hrec
        by_cases hcase : a.id = id <;>
          simp only [hcase, eq_self_iff_true, if_true, if_false] at hrec ⊢ <;> omega
      · -- split
        have hlgm := largestGap_mem hlg
        have hs : jIsNum lg.start :=
          hg lg (List.getElem?_mem hlgm) (by rw [hld]; simp [jIsNum])
        obtain ⟨sv, hsv⟩ : ∃ sv, lg.start = JNum.num sv := by
          cases hgs : lg.start with
          | nan => exact absurd hgs hs
          | num w => exact ⟨w, rfl⟩
        have hg2 : gapsNumOk (st.gaps.set li (consumedGap (max 15 (gd - buffer) + buffer) lg)) :=
          gapsNumOk_set hg hlgm _
        have hrec := ih h hg2
        dsimp only at hrec
        rw [idBlockDur_append, idBlockDur_single, idDur_cons] at hrec
        rw [idDur_cons]
        have hval : jval (partABlock a lg (max 15 (gd - buffer))).endTime
            - jval (partABlock a lg (max 15 (gd - buffer))).startTime
            = max 15 (gd - buffer) := by
          simp [partABlock, hsv, jadd, jval]
        have hid : (partABlock a lg (max 15 (gd - buffer))).taskId = a.id := rfl
        have hbid : (partBTask a (max 15 (gd - buffer))).id = a.id := rfl
        have hbdur : (partBTask a (max 15 (gd - buffer))).durationMinutes
            = a.durationMinutes - max 15 (gd - buffer) := rfl
        rw [hid, hval, hbid, hbdur] at hrec
        by_cases hcase : a.id = id <;>
          simp only [hcase, eq_self_iff_true, if_true, if_false] at hrec ⊢ <;> omega
      · -- rollover
        have hrec := ih h hg
        dsimp only at hrec
        rw [idDur_append, idDur_cons, idDur_nil] at hrec
        rw [idDur_cons]
        by_cases hcase : a.id = id <;>
          simp only [hcase, eq_self_iff_true, if_true, if_false] at hrec ⊢ <;> omega

/-- C3 (amended): per-task duration conservation.  A split emits one
"Part 1" block of `max(15, largestGapDuration - buffer)` minutes and
re-queues a "Part 2" remainder holding exactly the rest, so for every task
id the minutes of its blocks plus the minutes of its rollover entries equal
the minutes it entered the queue with.  A split does *not* guarantee exactly
two blocks, nor both parts ≥ 15 minutes: the remainder may be placed whole,
split again, or roll over (see the counterexample). -/
theorem c3_duration_conserved_per_task (tasks : List Task) (settings : UserSettings)
    (id : Str) :
    idBlockDur id (floatingPlacements tasks settings) + idDur id (rolloverList tasks settings)
      = idDur id (floatingSorted tasks) := by
  obtain ⟨st2, hres⟩ := Option.isSome_iff_exists.mp (fitResult_isSome tasks settings)
  have hfl : fitLoop settings.bufferMinutes (queueMeasure (floatingSorted tasks))
      (floatingSorted tasks)
      { gaps := initialGaps tasks settings, blocks := [], rollover := [] } = some st2 := by
    simpa [fitResult] using hres
  have hnum : gapsNumOk (initialGaps tasks settings) := by
    rw [initialGaps]; exact computeGaps_numOk _ _
  have hcons := fitLoop_conserves hfl hnum id
  rw [floatingPlacements_eq hres, rolloverList_eq hres]
  dsimp only at hcons
  rw [idDur_nil] at hcons
  have hb0 : idBlockDur id ([] : List (Nat × ScheduleBlock)) = 0 := rfl
  rw [hb0] at hcons
  omega

/-! ## The split's actualFit bound (claim C4) -/

/-- C4 (amended): in the split attempt the engine computes
`actualFit = max(15, gapDuration - bufferMinutes)` over the largest gap; this
is always ≥ 15, so the `actualFit < 15` rollover branch is unreachable.
Whenever the split branch is reached (largest gap duration ≥ 15) — in
particular when `gapDuration - bufferMinutes = 14` — a Part 1 block of
length `actualFit` is emitted and the task does not roll over. -/
theorem c4_actual_fit_at_least_15 {buffer : Int} (task : Task) (queue : List Task)
    (st : FitState) {li : Nat} {lg : Gap} {gd : Int}
    (h1 : firstFit task.durationMinutes st.gaps = none)
    (h2 : task.isSplittable = true) (h3 : 30 < task.durationMinutes)
    (h4 : largestGap st.gaps = some (li, lg))
    (h5 : lg.duration = JNum.num gd) (h6 : 15 ≤ gd) :
    15 ≤ max 15 (gd - buffer) ∧
    (fitStep buffer task queue st).2.rollover = st.rollover ∧
    (fitStep buffer task queue st).2.blocks =
      st.blocks ++ [(li, partABlock task lg (max 15 (gd - buffer)))] := by
  rw [fitStep_split h1 h2 h3 h4 h5 h6]
  exact ⟨le_max_left _ _, rfl, rfl⟩

/-- Witness for C4 at the concrete 29-minute gap, buffer 15 (so
`gapDuration - bufferMinutes = 14`). -/
theorem c4_witness :
    (firstFit (exFloat ("f1".toList) 40 true).durationMinutes
        (initialGaps exC4 (exSettings 15)) = none ∧
     (exFloat ("f1".toList) 40 true).isSplittable = true ∧
     30 < (exFloat ("f1".toList) 40 true).durationMinutes ∧
     largestGap (initialGaps exC4 (exSettings 15)) =
       some (0, { start := JNum.num 360, «end» := JNum.num 389, duration := JNum.num 29 }) ∧
     (29 : Int) - 15 = 14) ∧
    (15 ≤ max 15 ((29 : Int) - 15) ∧
     (fitStep 15 (exFloat ("f1".toList) 40 true) []
        { gaps := initialGaps exC4 (exSettings 15), blocks := [], rollover := [] }).2.rollover
       = [] ∧
     (fitStep 15 (exFloat ("f1".toList) 40 true) []
        { gaps := initialGaps exC4 (exSettings 15), blocks := [], rollover := [] }).2.blocks
       = [] ++ [(0, partABlock (exFloat ("f1".toList) 40 true)
           { start := JNum.num 360, «end» := JNum.num 389, duration := JNum.num 29 }
           (max 15 ((29 : Int) - 15)))]) :=
  ⟨⟨by decide, by decide, by decide, by decide, by decide⟩,
   c4_actual_fit_at_least_15 (exFloat ("f1".toList) 40 true) []
     { gaps := initialGaps exC4 (exSettings 15), blocks := [], rollover := [] }
     (by decide) (by decide) (by decide) (by decide) (by decide) (by decide)⟩

/-! ## Sortedness of the stable sort -/

theorem insStable_pairwise {lt : α → α → Bool}
    (htrans : ∀ a b c, lt a b = true → lt b c = true → lt a c = true)
    (hirr : ∀ a, lt a a = false)
    {l : List α} (hl : l.Pairwise (fun a b => lt b a = false)) (x : α) :
    (insStable lt x l).Pairwise (fun a b => lt b a = false) := by
  induction l with
  | nil => simp [insStable]
  | cons y ys ih =>
    rw [insStable]
    rw [List.pairwise_cons] at hl
    obtain ⟨hl1, hl2⟩ := hl
    by_cases h : lt x y = true
    · rw [if_pos h]
      refine List.Pairwise.cons ?_ (List.Pairwise.cons hl1 hl2)
      intro z hz
      rcases List.mem_cons.mp hz with rfl | hzys
      · cases hyx : lt z x with
        | false => rfl
        | true => exact absurd (htrans z x z hyx h) (by simp [hirr z])
      · cases hzx : lt z x with
        | false => rfl
        | true => exact absurd (htrans z x y hzx h) (by rw [hl1 z hzys]; simp)
    · rw [if_neg h]
      refine List.Pairwise.cons ?_ (ih hl2)
      intro z hz
      rcases mem_insStable.mp hz with rfl | hzys
      · exact Bool.not_eq_true _ ▸ h
      · exact hl1 z hzys

theorem sortStableGo_pairwise {lt : α → α → Bool}
    (htrans : ∀ a b c, lt a b = true → lt b c = true → lt a c = true)
    (hirr : ∀ a, lt a a = false) :
    ∀ (l acc : List α), acc.Pairwise (fun a b => lt b a = false) →
      (sortStableGo lt acc l).Pairwise (fun a b => lt b a = false) := by
  intro l
  induction l with
  | nil => intro acc hacc; exact hacc
  | cons a l ih =>
    intro acc hacc
    rw [sortStableGo]
    exact ih _ (insStable_pairwise htrans hirr hacc a)

theorem sortStable_pairwise {lt : α → α → Bool}
    (htrans : ∀ a b c, lt a b = true → lt b c = true → lt a c = true)
    (hirr : ∀ a, lt a a = false)
    (l : List α) :
    (sortStable lt l).Pairwise (fun a b => lt b a = false) :=
  sortStableGo_pairwise htrans hirr l [] List.Pairwise.nil

/-! ## Well-formed inputs and occupied-range geometry -/

/-- The input contract the spec states for the engine (§3/§6): non-negative
buffer, positive durations for the floating tasks to be scheduled,
non-negative durations and parseable in-day start times for fixed tasks. -/
def WellFormedInput (tasks : List Task) (settings : UserSettings) : Prop :=
  0 ≤ settings.bufferMinutes ∧
  (∀ t ∈ tasks, t.type = TaskType.floating → t.status ≠ TaskStatus.completed →
    0 < t.durationMinutes) ∧
  (∀ t ∈ tasks, (t.type = TaskType.anchor ∨ t.type = TaskType.interrupt) →
    0 ≤ t.durationMinutes ∧
    ∀ s, t.fixedStartTime = some s → s ≠ [] →
      jIsNum (timeToMinutes s) ∧ 0 ≤ jval (timeToMinutes s) ∧ jval (timeToMinutes s) ≤ 1439)

/-- A well-formed occupied range: numeric, within `[0, 1440]`, start ≤ end. -/
def ivlWF (o : Ivl) : Prop :=
  ∃ s e : Int, o.start = JNum.num s ∧ o.«end» = JNum.num e ∧ 0 ≤ s ∧ s ≤ e ∧ e ≤ 1440

theorem occLt_trans : ∀ a b c : Ivl, occLt a b = true → occLt b c = true →
    occLt a c = true := by
  intro a b c hab hbc
  cases ha : a.start <;> cases hb : b.start <;> cases hc : c.start <;>
    simp [occLt, jsub, jsCmpLt, ha, hb, hc] at hab hbc ⊢ <;> omega

theorem occLt_irrefl : ∀ a : Ivl, occLt a a = false := by
  intro a
  cases ha : a.start <;> simp [occLt, jsub, jsCmpLt, ha]

/-- The sorted occupied list is ascending by start (on well-formed ranges). -/
theorem sortStable_occ_sorted {l : List Ivl} (hwf : ∀ o ∈ l, ivlWF o) :
    (sortStable occLt l).Pairwise (fun o1 o2 => jval o1.start ≤ jval o2.start) := by
  have hp := sortStable_pairwise occLt_trans occLt_irrefl l
  refine List.Pairwise.imp_of_mem ?_ hp
  intro a b ha hb hab
  obtain ⟨sa, ea, hsa, _, _, _, _⟩ := hwf a (mem_sortStable.mp ha)
  obtain ⟨sb, eb, hsb, _, _, _, _⟩ := hwf b (mem_sortStable.mp hb)
  rw [hsa, hsb]
  simp only [occLt, hsa, hsb, jsub, jsCmpLt, decide_eq_false_iff_not] at hab
  simp only [jval_num]
  omega

/-- Hypotheses on the fixed-task list extracted from `WellFormedInput`. -/
def fixedListWF (ts : List Task) : Prop :=
  ∀ t ∈ ts, 0 ≤ t.durationMinutes ∧
    ∀ s, t.fixedStartTime = some s → s ≠ [] →
      jIsNum (timeToMinutes s) ∧ 0 ≤ jval (timeToMinutes s) ∧ jval (timeToMinutes s) ≤ 1439

theorem fixedListWF_of_wf {tasks : List Task} {settings : UserSettings}
    (hwf : WellFormedInput tasks settings) : fixedListWF (fixedTasks tasks) := by
  intro t ht
  obtain ⟨htm, hty⟩ := List.mem_filter.mp ht
  refine hwf.2.2 t htm ?_
  cases h2 : t.type with
  | anchor => exact Or.inl rfl
  | interrupt => exact Or.inr rfl
  | floating => rw [h2] at hty; exact absurd hty (by decide)

/-- Every occupied range pushed by the fixed pass is well formed. -/
theorem fixedPass_occ_wf {buffer : Int} (hb : 0 ≤ buffer) {ts : List Task}
    (hts : fixedListWF ts) :
    ∀ o ∈ (fixedPass buffer ts).2, ivlWF o := by
  induction ts with
  | nil => intro o ho; cases ho
  | cons a ts ih =>
    have iha := ih (fun t ht => hts t (List.mem_cons_of_mem _ ht))
    intro o ho
    rcases haf : a.fixedStartTime with _ | s
    · rw [fixedPass_cons_none haf] at ho; exact iha o ho
    · rcases eq_or_ne s [] with rfl | hne
      · rw [fixedPass_cons_empty haf] at ho; exact iha o ho
      · rw [fixedPass_cons_some haf hne] at ho
        rcases List.mem_cons.mp ho with rfl | hmem
        · obtain ⟨hd, hparse⟩ := hts a (List.mem_cons_self _ _)
          obtain ⟨hn1, hn2, hn3⟩ := hparse s haf hne
          obtain ⟨n, hn⟩ : ∃ n, timeToMinutes s = JNum.num n := by
            cases h2 : timeToMinutes s with
            | nan => exact absurd h2 hn1
            | num w => exact ⟨w, rfl⟩
          rw [hn] at hn2 hn3
          simp only [jval_num] at hn2 hn3
          refine ⟨max 0 (n - buffer), min 1440 (n + a.durationMinutes + buffer),
            ?_, ?_, ?_, ?_, ?_⟩
          · simp [hn, jsub, jmax]
          · simp only [hn, jadd, jmin]
          · omega
          · omega
          · omega
        · exact iha o hmem

/-- Every locked block's minutes (below 1440) are covered by its own
buffer-expanded occupied range. -/
theorem fixedPass_blocks_covered {buffer : Int} (hb : 0 ≤ buffer) {ts : List Task}
    (hts : fixedListWF ts) :
    ∀ blk ∈ (fixedPass buffer ts).1, ∀ x : Int, inBlockPt x blk → x < 1440 →
      ∃ o ∈ (fixedPass buffer ts).2, inIvlPt x o := by
  induction ts with
  | nil => intro blk hblk; cases hblk
  | cons a ts ih =>
    have iha := ih (fun t ht => hts t (List.mem_cons_of_mem _ ht))
    intro blk hblk x hx hx1440
    rcases haf : a.fixedStartTime with _ | s
    · rw [fixedPass_cons_none haf] at hblk ⊢; exact iha blk hblk x hx hx1440
    · rcases eq_or_ne s [] with rfl | hne
      · rw [fixedPass_cons_empty haf] at hblk ⊢; exact iha blk hblk x hx hx1440
      · rw [fixedPass_cons_some haf hne] at hblk ⊢
        rcases List.mem_cons.mp hblk with rfl | hmem
        · obtain ⟨hd, hparse⟩ := hts a (List.mem_cons_self _ _)
          obtain ⟨hn1, hn2, hn3⟩ := hparse s haf hne
          obtain ⟨n, hn⟩ : ∃ n, timeToMinutes s = JNum.num n := by
            cases h2 : timeToMinutes s with
            | nan => exact absurd h2 hn1
            | num w => exact ⟨w, rfl⟩
          rw [hn] at hn2 hn3
          simp only [jval_num] at hn2 hn3
          obtain ⟨_, _, hxl, hxr⟩ := hx
          simp only [hn, jadd, jval] at hxl hxr
          refine ⟨_, List.mem_cons_self _ _, ?_⟩
          refine ⟨?_, ?_, ?_, ?_⟩
          · simp [hn, jsub, jmax, jIsNum]
          · simp only [hn, jadd, jmin]
            simp [jIsNum]
          · simp only [hn, jsub, jmax, jval_num]
            omega
          · simp only [hn, jadd, jmin, jval_num]
            omega
        · obtain ⟨o, homem, hpt⟩ := iha blk hmem x hx hx1440
          exact ⟨o, List.mem_cons_of_mem _ homem, hpt⟩

/-! ## The merge loop preserves geometry and coverage -/

theorem mergeOcc_props {rest : List Ivl} :
    ∀ {cur : Ivl}, ivlWF cur → (∀ o ∈ rest, ivlWF o) →
    (∀ o ∈ rest, jval cur.start ≤ jval o.start) →
    rest.Pairwise (fun o1 o2 => jval o1.start ≤ jval o2.start) →
    (∀ o ∈ mergeOcc cur rest, ivlWF o) ∧
    (∀ o ∈ mergeOcc cur rest, jval cur.start ≤ jval o.start) ∧
    (mergeOcc cur rest).Pairwise (fun o1 o2 => jval o1.start ≤ jval o2.start) ∧
    (∀ x : Int, inIvlPt x cur → ∃ o ∈ mergeOcc cur rest, inIvlPt x o) ∧
    (∀ x : Int, ∀ o2 ∈ rest, inIvlPt x o2 → ∃ o ∈ mergeOcc cur rest, inIvlPt x o) := by
  induction rest with
  | nil =>
    intro cur hcur _ _ _
    rw [mergeOcc]
    refine ⟨?_, ?_, ?_, ?_, ?_⟩
    · intro o ho; rcases List.mem_singleton.mp ho with rfl; exact hcur
    · intro o ho; rcases List.mem_singleton.mp ho with rfl; exact le_refl _
    · simp
    · intro x hx; exact ⟨cur, List.mem_singleton_self _, hx⟩
    · intro x o2 ho2; cases ho2
  | cons o rest ih =>
    intro cur hcur hrest hsort hpair
    obtain ⟨sc, ec, hsc, hec, hc0, hcse, hc1440⟩ := hcur
    obtain ⟨so, eo, hso, heo, ho0, hose, ho1440⟩ := hrest o (List.mem_cons_self _ _)
    have hso_ge : sc ≤ so := by
      have := hsort o (List.mem_cons_self _ _)
      rw [hsc, hso] at this
      simpa [jval] using this
    rw [mergeOcc]
    rw [List.pairwise_cons] at hpair
    obtain ⟨hpair1, hpair2⟩ := hpair
    have hrest2 : ∀ o2 ∈ rest, ivlWF o2 := fun o2 h => hrest o2 (List.mem_cons_of_mem _ h)
    by_cases habs : jlt o.start cur.«end» = true
    · rw [if_pos habs]
      have hcur2 : ivlWF { cur with «end» := jmax cur.«end» o.«end» } := by
        exact ⟨sc, max ec eo, hsc, by simp [hec, heo, jmax], hc0, by omega, by omega⟩
      have hsort2 : ∀ o2 ∈ rest,
          jval ({ cur with «end» := jmax cur.«end» o.«end» } : Ivl).start ≤ jval o2.start :=
        fun o2 h2 => hsort o2 (List.mem_cons_of_mem _ h2)
      obtain ⟨P1, P2, P3, P4, P5⟩ := ih hcur2 hrest2 hsort2 hpair2
      refine ⟨P1, ?_, P3, ?_, ?_⟩
      · intro o3 h3
        exact P2 o3 h3
      · intro x hx
        apply P4
        obtain ⟨h1, h2, h3, h4⟩ := hx
        refine ⟨h1, by simp [hec, heo, jmax, jIsNum], h3, ?_⟩
        rw [hec] at h4
        simp only [jval_num] at h4 ⊢
        simp only [hec, heo, jmax, jval_num]
        omega
      · intro x o2 ho2 hpt
        rcases List.mem_cons.mp ho2 with rfl | h2
        · apply P4
          obtain ⟨h1, h2, h3, h4⟩ := hpt
          rw [hso] at h3
          rw [heo] at h4
          simp only [jval_num] at h3 h4
          refine ⟨by simp [hsc, jIsNum], by simp [hec, heo, jmax, jIsNum], ?_, ?_⟩
          · simp only [hsc, jval_num]
            omega
          · simp only [hec, heo, jmax, jval_num]
            omega
        · exact P5 x o2 h2 hpt
    · rw [if_neg habs]
      obtain ⟨P1, P2, P3, P4, P5⟩ := ih (hrest o (List.mem_cons_self _ _)) hrest2 hpair1 hpair2
      have hhead : ∀ o3 ∈ mergeOcc o rest, jval cur.start ≤ jval o3.start := by
        intro o3 h3
        have h4 := P2 o3 h3
        rw [hsc]
        rw [hso] at h4
        simp only [jval_num] at h4 ⊢
        omega
      refine ⟨?_, ?_, ?_, ?_, ?_⟩
      · intro o3 h3
        rcases List.mem_cons.mp h3 with rfl | h4
        · exact ⟨sc, ec, hsc, hec, hc0, hcse, hc1440⟩
        · exact P1 o3 h4
      · intro o3 h3
        rcases List.mem_cons.mp h3 with rfl | h4
        · exact le_refl _
        · exact hhead o3 h4
      · exact List.Pairwise.cons hhead P3
      · intro x hx
        exact ⟨cur, List.mem_cons_self _ _, hx⟩
      · intro x o2 ho2 hpt
        rcases List.mem_cons.mp ho2 with rfl | h2
        · obtain ⟨o3, h3, hpt3⟩ := P4 x hpt
          exact ⟨o3, List.mem_cons_of_mem _ h3, hpt3⟩
        · obtain ⟨o3, h3, hpt3⟩ := P5 x o2 h2 hpt
          exact ⟨o3, List.mem_cons_of_mem _ h3, hpt3⟩

/-- Wrapper over `mergedOccupied`. -/
theorem mergedOccupied_props {l : List Ivl} (hwf : ∀ o ∈ l, ivlWF o)
    (hpair : l.Pairwise (fun o1 o2 => jval o1.start ≤ jval o2.start)) :
    (∀ o ∈ mergedOccupied l, ivlWF o) ∧
    (mergedOccupied l).Pairwise (fun o1 o2 => jval o1.start ≤ jval o2.start) ∧
    (∀ x : Int, ∀ o2 ∈ l, inIvlPt x o2 → ∃ o ∈ mergedOccupied l, inIvlPt x o) := by
  cases l with
  | nil =>
    exact ⟨fun o ho => absurd ho (by simp [mergedOccupied]),
      by simp [mergedOccupied], fun x o2 ho2 => absurd ho2 (by simp)⟩
  | cons c rest =>
    rw [List.pairwise_cons] at hpair
    obtain ⟨hp1, hp2⟩ := hpair
    obtain ⟨P1, P2, P3, P4, P5⟩ := mergeOcc_props (hwf c (List.mem_cons_self _ _))
      (fun o h => hwf o (List.mem_cons_of_mem _ h)) hp1 hp2
    refine ⟨P1, P3, ?_⟩
    intro x o2 ho2 hpt
    rcases List.mem_cons.mp ho2 with rfl | h2
    · exact P4 x hpt
    · exact P5 x o2 h2 hpt

/-! ## Gap computation: bounds, ordering, and disjointness from occupied -/

theorem dayStart_eq : dayStart = JNum.num 360 := by decide

theorem dayEnd_eq : dayEnd = JNum.num 1380 := by decide

theorem computeGaps_nil (c : Int) :
    computeGaps (JNum.num c) [] =
      if c < 1380 then
        [{ start := JNum.num c, «end» := JNum.num 1380, duration := JNum.num (1380 - c) }]
      else [] := by
  rw [computeGaps, dayEnd_eq]
  by_cases h : c < 1380
  · rw [if_pos (by simp only [jlt, decide_eq_true_eq]; exact h), if_pos h]
    simp [jsub]
  · rw [if_neg (by simp only [jlt, decide_eq_true_eq]; exact h), if_neg h]

theorem computeGaps_skip {c eo : Int} {o : Ivl} {rest : List Ivl}
    (heo : o.«end» = JNum.num eo) (h : eo ≤ c) :
    computeGaps (JNum.num c) (o :: rest) = computeGaps (JNum.num c) rest := by
  rw [computeGaps, heo]
  rw [if_pos (by simp only [jle, decide_eq_true_eq]; exact h)]

theorem computeGaps_gap {c so eo : Int} {o : Ivl} {rest : List Ivl}
    (hso : o.start = JNum.num so) (heo : o.«end» = JNum.num eo)
    (h1 : ¬ (eo ≤ c)) (h2 : c < so) :
    computeGaps (JNum.num c) (o :: rest) =
      { start := JNum.num c, «end» := JNum.num so, duration := JNum.num (so - c) } ::
        computeGaps (JNum.num (max c eo)) rest := by
  rw [computeGaps, heo, hso]
  rw [if_neg (by simp only [jle, decide_eq_true_eq]; exact h1),
    if_pos (by simp only [jgt, decide_eq_true_eq]; exact h2)]
  simp [jsub, jmax]

theorem computeGaps_pass {c so eo : Int} {o : Ivl} {rest : List Ivl}
    (hso : o.start = JNum.num so) (heo : o.«end» = JNum.num eo)
    (h1 : ¬ (eo ≤ c)) (h2 : ¬ (c < so)) :
    computeGaps (JNum.num c) (o :: rest) = computeGaps (JNum.num (max c eo)) rest := by
  rw [computeGaps, heo, hso]
  rw [if_neg (by simp only [jle, decide_eq_true_eq]; exact h1),
    if_neg (by simp only [jgt, decide_eq_true_eq]; exact h2)]
  simp [jmax]

/-- The gap finder produces numeric gaps at or after the cursor that end by
minute 1440, in ascending disjoint order, and disjoint from every occupied
range it scanned. -/
theorem computeGaps_props : ∀ (occs : List Ivl) (c : Int),
    (∀ o ∈ occs, ivlWF o) →
    occs.Pairwise (fun o1 o2 => jval o1.start ≤ jval o2.start) →
    (∀ g ∈ computeGaps (JNum.num c) occs,
       ∃ s d : Int, g.start = JNum.num s ∧ g.duration = JNum.num d ∧
         c ≤ s ∧ s + d ≤ 1440) ∧
    ((computeGaps (JNum.num c) occs).Pairwise
      (fun g1 g2 => jval g1.start + jval g1.duration ≤ jval g2.start)) ∧
    (∀ g ∈ computeGaps (JNum.num c) occs, ∀ o ∈ occs, ∀ x : Int,
       jval g.start ≤ x → x < jval g.start + jval g.duration → ¬ inIvlPt x o) := by
  intro occs
  induction occs with
  | nil =>
    intro c _ _
    rw [computeGaps_nil]
    by_cases h : c < 1380
    · rw [if_pos h]
      refine ⟨?_, by simp, ?_⟩
      · intro g hg
        rcases List.mem_singleton.mp hg with rfl
        exact ⟨c, 1380 - c, rfl, rfl, le_refl _, by omega⟩
      · intro g _ o ho; cases ho
    · rw [if_neg h]
      exact ⟨fun g hg => absurd hg (by simp), by simp, fun g hg => absurd hg (by simp)⟩
  | cons o rest ih =>
    intro c hwf hpair
    obtain ⟨so, eo, hso, heo, ho0, hose, ho1440⟩ := hwf o (List.mem_cons_self _ _)
    rw [List.pairwise_cons] at hpair
    obtain ⟨hp1, hp2⟩ := hpair
    have hwf2 : ∀ o2 ∈ rest, ivlWF o2 := fun o2 h => hwf o2 (List.mem_cons_of_mem _ h)
    by_cases h1 : eo ≤ c
    · rw [computeGaps_skip heo h1]
      obtain ⟨P1, P2, P3⟩ := ih c hwf2 hp2
      refine ⟨P1, P2, ?_⟩
      intro g hg o2 ho2 x hx1 hx2
      rcases List.mem_cons.mp ho2 with rfl | h3
      · intro hpt
        obtain ⟨_, _, _, hxe⟩ := hpt
        obtain ⟨s, d, hgs, hgd, hcs, _⟩ := P1 g hg
        rw [hgs] at hx1
        rw [heo] at hxe
        simp only [jval_num] at hx1 hxe
        omega
      · exact P3 g hg o2 h3 x hx1 hx2
    · by_cases h2 : c < so
      · rw [computeGaps_gap hso heo h1 h2]
        obtain ⟨P1, P2, P3⟩ := ih (max c eo) hwf2 hp2
        refine ⟨?_, ?_, ?_⟩
        · intro g hg
          rcases List.mem_cons.mp hg with rfl | h3
          · exact ⟨c, so - c, rfl, rfl, le_refl _, by omega⟩
          · obtain ⟨s, d, hgs, hgd, hcs, hbd⟩ := P1 g h3
            exact ⟨s, d, hgs, hgd, by omega, hbd⟩
        · refine List.Pairwise.cons ?_ P2
          intro g2 h3
          obtain ⟨s, d, hgs, hgd, hcs, _⟩ := P1 g2 h3
          rw [hgs]
          simp only [jval_num]
          omega
        · intro g hg o2 ho2 x hx1 hx2
          rcases List.mem_cons.mp hg with rfl | h3
          · simp only [jval_num] at hx1 hx2
            intro hpt
            obtain ⟨_, _, hxs, hxe⟩ := hpt
            rcases List.mem_cons.mp ho2 with rfl | h4
            · rw [hso] at hxs
              simp only [jval_num] at hxs
              omega
            · have h5 := hp1 o2 h4
              rw [hso] at h5
              simp only [jval_num] at h5
              omega
          · rcases List.mem_cons.mp ho2 with rfl | h4
            · intro hpt
              obtain ⟨_, _, _, hxe⟩ := hpt
              obtain ⟨s, d, hgs, hgd, hcs, _⟩ := P1 g h3
              rw [hgs] at hx1
              rw [heo] at hxe
              simp only [jval_num] at hx1 hxe
              omega
            · exact P3 g h3 o2 h4 x hx1 hx2
      · rw [computeGaps_pass hso heo h1 h2]
        obtain ⟨P1, P2, P3⟩ := ih (max c eo) hwf2 hp2
        refine ⟨?_, P2, ?_⟩
        · intro g hg
          obtain ⟨s, d, hgs, hgd, hcs, hbd⟩ := P1 g hg
          exact ⟨s, d, hgs, hgd, by omega, hbd⟩
        · intro g hg o2 ho2 x hx1 hx2
          rcases List.mem_cons.mp ho2 with rfl | h4
          · intro hpt
            obtain ⟨_, _, _, hxe⟩ := hpt
            obtain ⟨s, d, hgs, hgd, hcs, _⟩ := P1 g hg
            rw [hgs] at hx1
            rw [heo] at hxe
            simp only [jval_num] at hx1 hxe
            omega
          · exact P3 g hg o2 h4 x hx1 hx2

/-! ## The geometric loop invariant (claims C1, C5, C6) -/

theorem floatingSorted_mem {tasks : List Task} {t : Task} (h : t ∈ floatingSorted tasks) :
    t ∈ tasks ∧ t.type = TaskType.floating ∧ t.status ≠ TaskStatus.completed := by
  rw [floatingSorted, mem_sortStable] at h
  obtain ⟨hmem, hcond⟩ := List.mem_filter.mp h
  obtain ⟨h1, h2⟩ := Bool.and_eq_true_iff.mp hcond
  refine ⟨hmem, ?_, ?_⟩
  · cases h3 : t.type <;> rw [h3] at h1 <;> first | rfl | exact absurd h1 (by decide)
  · intro hc; rw [hc] at h2; exact absurd h2 (by decide)

/-- Geometry of the initial gap list: numeric in-window gaps, ascending and
disjoint, and disjoint from every locked block. -/
theorem initialGaps_props {tasks : List Task} {settings : UserSettings}
    (hwf : WellFormedInput tasks settings) :
    (∀ g ∈ initialGaps tasks settings,
       ∃ s d : Int, g.start = JNum.num s ∧ g.duration = JNum.num d ∧
         360 ≤ s ∧ s + d ≤ 1440) ∧
    ((initialGaps tasks settings).Pairwise
      (fun g1 g2 => jval g1.start + jval g1.duration ≤ jval g2.start)) ∧
    (∀ g ∈ initialGaps tasks settings,
       ∀ fb ∈ (fixedPass settings.bufferMinutes (fixedTasks tasks)).1,
       ∀ x : Int, jval g.start ≤ x → x < jval g.start + jval g.duration →
         ¬ inBlockPt x fb) := by
  have hfl := fixedListWF_of_wf hwf
  have hocc := fixedPass_occ_wf hwf.1 hfl
  have hsortwf : ∀ o ∈ sortStable occLt (fixedPass settings.bufferMinutes (fixedTasks tasks)).2,
      ivlWF o := fun o h => hocc o (mem_sortStable.mp h)
  have hsorted := sortStable_occ_sorted hocc
  obtain ⟨hmwf, hmsort, hmcov⟩ := mergedOccupied_props hsortwf hsorted
  obtain ⟨P1, P2, P3⟩ := computeGaps_props
    (mergedOccupied (sortStable occLt (fixedPass settings.bufferMinutes (fixedTasks tasks)).2))
    360 hmwf hmsort
  have hig : initialGaps tasks settings =
      computeGaps (JNum.num 360)
        (mergedOccupied (sortStable occLt (fixedPass settings.bufferMinutes (fixedTasks tasks)).2)) := by
    rw [initialGaps, dayStart_eq]
  rw [hig]
  refine ⟨P1, P2, ?_⟩
  intro g hg fb hfb x hx1 hx2 hpt
  have hx1440 : x < 1440 := by
    obtain ⟨s, d, hgs, hgd, _, hbd⟩ := P1 g hg
    rw [hgs, hgd] at hx2
    simp only [jval_num] at hx2
    omega
  obtain ⟨o, ho, hpto⟩ := fixedPass_blocks_covered hwf.1 hfl fb hfb x hpt hx1440
  obtain ⟨o2, ho2, hpt2⟩ := hmcov x o (mem_sortStable.mpr ho) hpto
  exact P3 g hg o2 ho2 x hx1 hx2 hpt2

/-- Invariant of the fitting loop relating the current state to the original
gap list `G0`: gap starts only advance within their original extent, every
placed block lies inside its gap's original extent and ends (plus buffer)
before the gap's current start, and same-gap blocks are buffer-separated in
placement order. -/
def LoopInv (b : Int) (G0 : List Gap) (q : List Task) (st : FitState) : Prop :=
  st.gaps.length = G0.length ∧
  (∀ t ∈ q, 0 < t.durationMinutes) ∧
  (∀ i, (hi : i < st.gaps.length) → (hg : i < G0.length) →
    ∃ s d s0 d0 : Int, (st.gaps[i]).start = JNum.num s ∧
      (st.gaps[i]).duration = JNum.num d ∧
      (G0[i]).start = JNum.num s0 ∧ (G0[i]).duration = JNum.num d0 ∧
      s0 ≤ s ∧ s + d = s0 + d0) ∧
  (∀ p ∈ st.blocks, ∃ (hi : p.1 < st.gaps.length) (hg : p.1 < G0.length)
      (sb eb s s0 d0 : Int),
    p.2.startTime = JNum.num sb ∧ p.2.endTime = JNum.num eb ∧
    p.2.isLocked = false ∧
    (st.gaps[p.1]).start = JNum.num s ∧
    (G0[p.1]).start = JNum.num s0 ∧ (G0[p.1]).duration = JNum.num d0 ∧
    s0 ≤ sb ∧ eb ≤ s0 + d0 ∧ eb + b ≤ s) ∧
  st.blocks.Pairwise (fun p1 p2 => p1.1 = p2.1 →
    jval p1.2.endTime + b ≤ jval p2.2.startTime)

/-- The invariant holds at loop entry. -/
theorem LoopInv_init {tasks : List Task} {settings : UserSettings}
    (hwf : WellFormedInput tasks settings) :
    LoopInv settings.bufferMinutes (initialGaps tasks settings) (floatingSorted tasks)
      { gaps := initialGaps tasks settings, blocks := [], rollover := [] } := by
  refine ⟨rfl, ?_, ?_, by simp, by simp⟩
  · intro t ht
    obtain ⟨hmem, hty, hst⟩ := floatingSorted_mem ht
    exact hwf.2.1 t hmem hty hst
  · intro i hi hg
    obtain ⟨s, d, hs, hd, _, _⟩ :=
      (initialGaps_props hwf).1 ((initialGaps tasks settings)[i]) (List.getElem_mem _)
    exact ⟨s, d, s, d, hs, hd, hs, hd, le_refl _, rfl⟩

theorem getElem_of_getElem? {l : List α} {i : Nat} {a : α} (h : l[i]? = some a)
    {hi : i < l.length} : l[i] = a := by
  obtain ⟨h2, he⟩ := List.getElem?_eq_some_iff.mp h
  exact he

/-- One loop iteration preserves the geometric invariant. -/
theorem fitStep_LoopInv {b : Int} {G0 : List Gap} {task : Task} {queue : List Task}
    {st : FitState} (hb : 0 ≤ b) (hinv : LoopInv b G0 (task :: queue) st) :
    LoopInv b G0 (fitStep b task queue st).1 (fitStep b task queue st).2 := by
  obtain ⟨hlen, hq, hgaps, hblocks, hpw⟩ := hinv
  have hdur : 0 < task.durationMinutes := hq task (List.mem_cons_self _ _)
  have hqtail : ∀ t ∈ queue, 0 < t.durationMinutes :=
    fun t ht => hq t (List.mem_cons_of_mem _ ht)
  rcases fitStep_cases b task queue st with ⟨i, gap, hff, heq⟩ |
    ⟨li, lg, gd, hff, hsp, h30, hlg, hld, h15, heq⟩ | heq <;> rw [heq] <;> dsimp only
  · -- whole placement into gap i
    obtain ⟨hgi, hge⟩ := firstFit_some hff
    obtain ⟨hi, hgeq⟩ := List.getElem?_eq_some_iff.mp hgi
    have higg : i < G0.length := hlen ▸ hi
    obtain ⟨s, d, s0, d0, hs, hd, hs0, hd0, hss, hsum⟩ := hgaps i hi higg
    rw [hgeq] at hs hd
    have hdd : task.durationMinutes ≤ d := by
      rw [hd] at hge
      simpa [jge] using hge
    refine ⟨by simpa using hlen, hqtail, ?_, ?_, ?_⟩
    · intro j hj1 hj2
      rw [List.length_set] at hj1
      by_cases hij : j = i
      · subst hij
        refine ⟨s + (task.durationMinutes + b), d - (task.durationMinutes + b), s0, d0,
          ?_, ?_, hs0, hd0, by omega, by omega⟩
        · rw [List.getElem_set_self]
          simp [consumedGap, hs, jadd]
        · rw [List.getElem_set_self]
          simp [consumedGap, hd, jsub]
      · have hne : i ≠ j := fun h2 => hij h2.symm
        rw [List.getElem_set_ne hne]
        exact hgaps j hj1 hj2
    · intro p hp
      rcases List.mem_append.mp hp with hpold | hpnew
      · obtain ⟨hpi, hpg, sb, eb, sI, sO, dO, h1, h2, h3, h4, h5, h6, h7, h8, h9⟩ :=
          hblocks p hpold
        by_cases hpi2 : p.1 = i
        · refine ⟨by simpa using hpi, hpg, sb, eb, s + (task.durationMinutes + b), sO, dO,
            h1, h2, h3, ?_, h5, h6, h7, h8, ?_⟩
          · have e1 : (st.gaps.set i (consumedGap (task.durationMinutes + b) gap))[p.1]? =
                some (consumedGap (task.durationMinutes + b) gap) := by
              rw [hpi2]
              exact List.getElem?_set_self hi
            rw [getElem_of_getElem? e1]
            simp [consumedGap, hs, jadd]
          · have e2 : st.gaps[p.1]? = some gap := by rw [hpi2]; exact hgi
            have e3 : st.gaps[p.1] = gap := getElem_of_getElem? e2
            rw [e3] at h4
            have hIs : sI = s := (JNum.num.injEq _ _).mp (h4.symm.trans hs)
            omega
        · have hne : i ≠ p.1 := fun h2 => hpi2 h2.symm
          refine ⟨by simpa using hpi, hpg, sb, eb, sI, sO, dO, h1, h2, h3, ?_, h5, h6, h7, h8, h9⟩
          rw [List.getElem_set_ne hne]
          exact h4
      · rcases List.mem_singleton.mp hpnew with rfl
        refine ⟨by simpa using hi, higg, s, s + task.durationMinutes,
          s + (task.durationMinutes + b), s0, d0, ?_, ?_, rfl, ?_, hs0, hd0, hss,
          by omega, by omega⟩
        · simp [placedBlock, hs]
        · simp [placedBlock, hs, jadd]
        · rw [List.getElem_set_self]
          simp [consumedGap, hs, jadd]
    · rw [List.pairwise_append]
      refine ⟨hpw, by simp, ?_⟩
      intro p1 hp1 p2 hp2
      rcases List.mem_singleton.mp hp2 with rfl
      intro hidx
      obtain ⟨hpi, hpg, sb, eb, sI, sO, dO, h1, h2, h3, h4, h5, h6, h7, h8, h9⟩ :=
        hblocks p1 hp1
      have e2 : st.gaps[p1.1]? = some gap := by rw [hidx]; exact hgi
      have e3 : st.gaps[p1.1] = gap := getElem_of_getElem? e2
      rw [e3] at h4
      have hIs : sI = s := (JNum.num.injEq _ _).mp (h4.symm.trans hs)
      rw [h2]
      simp only [placedBlock, hs, jval_num]
      omega
  · -- split against the largest gap li
    have hgi := largestGap_mem hlg
    obtain ⟨hi, hgeq⟩ := List.getElem?_eq_some_iff.mp hgi
    have higg : li < G0.length := hlen ▸ hi
    obtain ⟨s, d, s0, d0, hs, hd, hs0, hd0, hss, hsum⟩ := hgaps li hi higg
    rw [hgeq] at hs hd
    have hdgd : d = gd := by
      rw [hld] at hd
      exact ((JNum.num.injEq _ _).mp hd).symm
    have hlt : gd < task.durationMinutes := by
      have h2 := firstFit_none hff lg (List.getElem?_mem hgi)
      rw [hld] at h2
      simpa [jge] using h2
    have haf1 : 15 ≤ max 15 (gd - b) := le_max_left _ _
    have haf2 : max 15 (gd - b) ≤ gd := by omega
    refine ⟨by simpa using hlen, ?_, ?_, ?_, ?_⟩
    · intro t ht
      rcases List.mem_cons.mp ht with rfl | ht2
      · show 0 < task.durationMinutes - max 15 (gd - b)
        omega
      · exact hqtail t ht2
    · intro j hj1 hj2
      rw [List.length_set] at hj1
      by_cases hij : j = li
      · subst hij
        refine ⟨s + (max 15 (gd - b) + b), d - (max 15 (gd - b) + b), s0, d0,
          ?_, ?_, hs0, hd0, by omega, by omega⟩
        · rw [List.getElem_set_self]
          simp [consumedGap, hs, jadd]
        · rw [List.getElem_set_self]
          simp [consumedGap, hd, jsub]
      · have hne : li ≠ j := fun h2 => hij h2.symm
        rw [List.getElem_set_ne hne]
        exact hgaps j hj1 hj2
    · intro p hp
      rcases List.mem_append.mp hp with hpold | hpnew
      · obtain ⟨hpi, hpg, sb, eb, sI, sO, dO, h1, h2, h3, h4, h5, h6, h7, h8, h9⟩ :=
          hblocks p hpold
        by_cases hpi2 : p.1 = li
        · refine ⟨by simpa using hpi, hpg, sb, eb, s + (max 15 (gd - b) + b), sO, dO,
            h1, h2, h3, ?_, h5, h6, h7, h8, ?_⟩
          · have e1 : (st.gaps.set li (consumedGap (max 15 (gd - b) + b) lg))[p.1]? =
                some (consumedGap (max 15 (gd - b) + b) lg) := by
              rw [hpi2]
              exact List.getElem?_set_self hi
            rw [getElem_of_getElem? e1]
            simp [consumedGap, hs, jadd]
          · have e2 : st.gaps[p.1]? = some lg := by rw [hpi2]; exact hgi
            have e3 : st.gaps[p.1] = lg := getElem_of_getElem? e2
            rw [e3] at h4
            have hIs : sI = s := (JNum.num.injEq _ _).mp (h4.symm.trans hs)
            omega
        · have hne : li ≠ p.1 := fun h2 => hpi2 h2.symm
          refine ⟨by simpa using hpi, hpg, sb, eb, sI, sO, dO, h1, h2, h3, ?_, h5, h6, h7,
            h8, h9⟩
          rw [List.getElem_set_ne hne]
          exact h4
      · rcases List.mem_singleton.mp hpnew with rfl
        refine ⟨by simpa using hi, higg, s, s + max 15 (gd - b),
          s + (max 15 (gd - b) + b), s0, d0, ?_, ?_, rfl, ?_, hs0, hd0, hss,
          by omega, by omega⟩
        · simp [partABlock, hs]
        · simp [partABlock, hs, jadd]
        · rw [List.getElem_set_self]
          simp [consumedGap, hs, jadd]
    · rw [List.pairwise_append]
      refine ⟨hpw, by simp, ?_⟩
      intro p1 hp1 p2 hp2
      rcases List.mem_singleton.mp hp2 with rfl
      intro hidx
      obtain ⟨hpi, hpg, sb, eb, sI, sO, dO, h1, h2, h3, h4, h5, h6, h7, h8, h9⟩ :=
        hblocks p1 hp1
      have e2 : st.gaps[p1.1]? = some lg := by rw [hidx]; exact hgi
      have e3 : st.gaps[p1.1] = lg := getElem_of_getElem? e2
      rw [e3] at h4
      have hIs : sI = s := (JNum.num.injEq _ _).mp (h4.symm.trans hs)
      rw [h2]
      simp only [partABlock, hs, jval_num]
      omega
  · -- rollover: gaps and blocks unchanged
    exact ⟨hlen, hqtail, hgaps, hblocks, hpw⟩

theorem fitLoop_LoopInv {b : Int} {G0 : List Gap} {fuel : Nat} {q : List Task}
    {st st' : FitState} (hb : 0 ≤ b) (h : fitLoop b fuel q st = some st')
    (hinv : LoopInv b G0 q st) : LoopInv b G0 [] st' := by
  induction fuel generalizing q st with
  | zero =>
    cases q with
    | nil =>
      rw [fitLoop] at h
      cases h
      obtain ⟨h1, _, h3, h4, h5⟩ := hinv
      exact ⟨h1, by simp, h3, h4, h5⟩
    | cons t q => rw [fitLoop] at h; cases h
  | succ fuel ih =>
    cases q with
    | nil =>
      rw [fitLoop] at h
      cases h
      obtain ⟨h1, _, h3, h4, h5⟩ := hinv
      exact ⟨h1, by simp, h3, h4, h5⟩
    | cons t q =>
      rw [fitLoop] at h
      exact ih h (fitStep_LoopInv hb hinv)

/-- C5: whenever two blocks are placed (by first-fit or split) into the same
original gap, the one placed later starts at least `bufferMinutes` after the
earlier one's end.  The gap index tag records which original gap each block
was carved from. -/
theorem c5_buffer_respected_within_gap (tasks : List Task) (settings : UserSettings)
    (hwf : WellFormedInput tasks settings) :
    (floatingPlacements tasks settings).Pairwise (fun p1 p2 => p1.1 = p2.1 →
      jval p1.2.endTime + settings.bufferMinutes ≤ jval p2.2.startTime) := by
  obtain ⟨st2, hres⟩ := Option.isSome_iff_exists.mp (fitResult_isSome tasks settings)
  have hfl : fitLoop settings.bufferMinutes (queueMeasure (floatingSorted tasks))
      (floatingSorted tasks)
      { gaps := initialGaps tasks settings, blocks := [], rollover := [] } = some st2 := by
    simpa [fitResult] using hres
  have hfin := fitLoop_LoopInv hwf.1 hfl (LoopInv_init hwf)
  rw [floatingPlacements_eq hres]
  exact hfin.2.2.2.2

/-- Witness for C5: two floating tasks share the initial day gap with a
10-minute buffer. -/
theorem c5_witness :
    WellFormedInput [exFloat ("A".toList) 30 false, exFloat ("B".toList) 40 false]
      (exSettings 10) ∧
    (floatingPlacements [exFloat ("A".toList) 30 false, exFloat ("B".toList) 40 false]
      (exSettings 10)).Pairwise (fun p1 p2 => p1.1 = p2.1 →
        jval p1.2.endTime + (exSettings 10).bufferMinutes ≤ jval p2.2.startTime) := by
  have hwf : WellFormedInput [exFloat ("A".toList) 30 false, exFloat ("B".toList) 40 false]
      (exSettings 10) := by
    refine ⟨by decide, ?_, ?_⟩
    · intro t ht _ _
      simp only [List.mem_cons, List.not_mem_nil, or_false] at ht
      rcases ht with rfl | rfl <;> decide
    · intro t ht hty
      simp only [List.mem_cons, List.not_mem_nil, or_false] at ht
      rcases ht with rfl | rfl <;> rcases hty with h | h <;> exact absurd h (by decide)
  exact ⟨hwf, c5_buffer_respected_within_gap _ _ hwf⟩

/-- C6 (amended): every *non-locked* block lies within `[360, 1440]`: it
starts no earlier than 06:00 and ends by 24:00 (not necessarily by the
23:00 window end — a gap can extend to a later occupied range's buffered
start — and locked blocks carry their `fixedStartTime` unclamped; see the
counterexample). -/
theorem c6_floating_blocks_in_window (tasks : List Task) (settings : UserSettings)
    (hwf : WellFormedInput tasks settings) :
    ∀ blk ∈ (rescheduleDay tasks settings).blocks, blk.isLocked = false →
      ∃ sb eb : Int, blk.startTime = JNum.num sb ∧ blk.endTime = JNum.num eb ∧
        360 ≤ sb ∧ eb ≤ 1440 := by
  obtain ⟨st2, hres⟩ := Option.isSome_iff_exists.mp (fitResult_isSome tasks settings)
  have hfl : fitLoop settings.bufferMinutes (queueMeasure (floatingSorted tasks))
      (floatingSorted tasks)
      { gaps := initialGaps tasks settings, blocks := [], rollover := [] } = some st2 := by
    simpa [fitResult] using hres
  have hfin := fitLoop_LoopInv hwf.1 hfl (LoopInv_init hwf)
  intro blk hblk hlock
  rw [rescheduleDay_parts] at hblk
  dsimp only at hblk
  rcases List.mem_append.mp hblk with hfb | hlb
  · rw [fixedPass_locked blk hfb] at hlock
    cases hlock
  · rw [floatingPlacements_eq hres] at hlb
    obtain ⟨p, hp, rfl⟩ := List.mem_map.mp hlb
    obtain ⟨hpi, hpg, sb, eb, sI, sO, dO, a1, a2, a3, a4, a5, a6, a7, a8, a9⟩ :=
      hfin.2.2.2.1 p hp
    obtain ⟨s2, d2, hs2, hd2, h360, h1440⟩ :=
      (initialGaps_props hwf).1 ((initialGaps tasks settings)[p.1]) (List.getElem_mem _)
    have e1 : s2 = sO := (JNum.num.injEq _ _).mp (hs2.symm.trans a5)
    have e2 : d2 = dO := (JNum.num.injEq _ _).mp (hd2.symm.trans a6)
    exact ⟨sb, eb, a1, a2, by omega, by omega⟩

/-- Witness for C6 at scenario 1 of the spec: anchor 09:00-10:30 with
buffer 15 and a 120-minute floating task. -/
theorem c6_witness :
    WellFormedInput [exAnchor ("a1".toList) ("09:00".toList) 90, exFloat ("A".toList) 120 false]
      (exSettings 15) ∧
    (∀ blk ∈ (rescheduleDay
        [exAnchor ("a1".toList) ("09:00".toList) 90, exFloat ("A".toList) 120 false]
        (exSettings 15)).blocks, blk.isLocked = false →
      ∃ sb eb : Int, blk.startTime = JNum.num sb ∧ blk.endTime = JNum.num eb ∧
        360 ≤ sb ∧ eb ≤ 1440) := by
  have hwf : WellFormedInput
      [exAnchor ("a1".toList) ("09:00".toList) 90, exFloat ("A".toList) 120 false]
      (exSettings 15) := by
    refine ⟨by decide, ?_, ?_⟩
    · intro t ht hty _
      simp only [List.mem_cons, List.not_mem_nil, or_false] at ht
      rcases ht with rfl | rfl
      · exact absurd hty (by decide)
      · decide
    · intro t ht hty
      simp only [List.mem_cons, List.not_mem_nil, or_false] at ht
      rcases ht with rfl | rfl
      · refine ⟨by decide, ?_⟩
        intro s hs hne
        injection hs with hs2
        rw [← hs2]
        exact ⟨by decide, by decide, by decide⟩
      · rcases hty with h | h <;> exact absurd h (by decide)
  exact ⟨hwf, c6_floating_blocks_in_window _ _ hwf⟩

/-- C1 (amended): any two emitted blocks that are *not both locked* have
disjoint `[startTime, endTime)` ranges (whether or not they belong to the
same split task).  Two locked blocks can overlap: the occupied ranges are
merged only for gap computation, while overlapping fixed tasks each keep
their own block (see the counterexample). -/
theorem c1_no_overlap_unless_both_locked (tasks : List Task) (settings : UserSettings)
    (hwf : WellFormedInput tasks settings) :
    (rescheduleDay tasks settings).blocks.Pairwise (fun b1 b2 =>
      (b1.isLocked = true ∧ b2.isLocked = true) ∨
      ∀ x : Int, ¬ (inBlockPt x b1 ∧ inBlockPt x b2)) := by
  obtain ⟨st2, hres⟩ := Option.isSome_iff_exists.mp (fitResult_isSome tasks settings)
  have hfl : fitLoop settings.bufferMinutes (queueMeasure (floatingSorted tasks))
      (floatingSorted tasks)
      { gaps := initialGaps tasks settings, blocks := [], rollover := [] } = some st2 := by
    simpa [fitResult] using hres
  have hfin := fitLoop_LoopInv hwf.1 hfl (LoopInv_init hwf)
  obtain ⟨hIG1, hIG2, hIG3⟩ := initialGaps_props hwf
  rw [rescheduleDay_parts]
  dsimp only
  rw [floatingPlacements_eq hres]
  rw [List.pairwise_append]
  refine ⟨?_, ?_, ?_⟩
  · refine List.pairwise_of_forall_mem_list ?_
    intro a ha b2 hb2
    exact Or.inl ⟨fixedPass_locked a ha, fixedPass_locked b2 hb2⟩
  · rw [List.pairwise_map]
    refine List.Pairwise.imp_of_mem ?_ hfin.2.2.2.2
    intro p1 p2 hp1 hp2 hR
    right
    rintro x ⟨hx1, hx2⟩
    obtain ⟨hpi1, hpg1, sb1, eb1, sI1, sO1, dO1, a1, a2, a3, a4, a5, a6, a7, a8, a9⟩ :=
      hfin.2.2.2.1 p1 hp1
    obtain ⟨hpi2, hpg2, sb2, eb2, sI2, sO2, dO2, c1, c2, c3, c4, c5, c6, c7, c8, c9⟩ :=
      hfin.2.2.2.1 p2 hp2
    obtain ⟨_, _, hxa, hxb⟩ := hx1
    obtain ⟨_, _, hxc, hxd⟩ := hx2
    rw [a1] at hxa
    rw [a2] at hxb
    rw [c1] at hxc
    rw [c2] at hxd
    simp only [jval_num] at hxa hxb hxc hxd
    by_cases hij : p1.1 = p2.1
    · have hbuf := hR hij
      rw [a2, c1] at hbuf
      simp only [jval_num] at hbuf
      have hb := hwf.1
      omega
    · have hIG2p := List.pairwise_iff_getElem.mp hIG2
      rcases Nat.lt_or_ge p1.1 p2.1 with hlt | hge
      · have h2 := hIG2p p1.1 p2.1 hpg1 hpg2 hlt
        rw [a5, a6, c5] at h2
        simp only [jval_num] at h2
        omega
      · have hlt2 : p2.1 < p1.1 := by omega
        have h2 := hIG2p p2.1 p1.1 hpg2 hpg1 hlt2
        rw [c5, c6, a5] at h2
        simp only [jval_num] at h2
        omega
  · intro fb hfb blk hblk
    right
    rintro x ⟨hxf, hxl⟩
    obtain ⟨p, hp, rfl⟩ := List.mem_map.mp hblk
    obtain ⟨hpi, hpg, sb, eb, sI, sO, dO, a1, a2, a3, a4, a5, a6, a7, a8, a9⟩ :=
      hfin.2.2.2.1 p hp
    obtain ⟨_, _, hxa, hxb⟩ := hxl
    rw [a1] at hxa
    rw [a2] at hxb
    simp only [jval_num] at hxa hxb
    refine hIG3 ((initialGaps tasks settings)[p.1]) (List.getElem_mem _) fb hfb x ?_ ?_ hxf
    · rw [a5]
      simp only [jval_num]
      omega
    · rw [a5, a6]
      simp only [jval_num]
      omega

/-- Witness for C1: an anchor plus two floating tasks with buffer 15. -/
theorem c1_witness :
    WellFormedInput [exAnchor ("a1".toList) ("10:00".toList) 60,
        exFloat ("A".toList) 50 false, exFloat ("B".toList) 45 false]
      (exSettings 15) ∧
    (rescheduleDay [exAnchor ("a1".toList) ("10:00".toList) 60,
        exFloat ("A".toList) 50 false, exFloat ("B".toList) 45 false]
      (exSettings 15)).blocks.Pairwise (fun b1 b2 =>
        (b1.isLocked = true ∧ b2.isLocked = true) ∨
        ∀ x : Int, ¬ (inBlockPt x b1 ∧ inBlockPt x b2)) := by
  have hwf : WellFormedInput [exAnchor ("a1".toList) ("10:00".toList) 60,
      exFloat ("A".toList) 50 false, exFloat ("B".toList) 45 false] (exSettings 15) := by
    refine ⟨by decide, ?_, ?_⟩
    · intro t ht hty _
      simp only [List.mem_cons, List.not_mem_nil, or_false] at ht
      rcases ht with rfl | rfl | rfl
      · exact absurd hty (by decide)
      · decide
      · decide
    · intro t ht hty
      simp only [List.mem_cons, List.not_mem_nil, or_false] at ht
      rcases ht with rfl | rfl | rfl
      · refine ⟨by decide, ?_⟩
        intro s hs hne
        injection hs with hs2
        rw [← hs2]
        exact ⟨by decide, by decide, by decide⟩
      · rcases hty with h | h <;> exact absurd h (by decide)
      · rcases hty with h | h <;> exact absurd h (by decide)
  exact ⟨hwf, c1_no_overlap_unless_both_locked _ _ hwf⟩

end Sched
